import Mathlib

/-!
# puzzle_piece_plan.cpp (trajopt_examples)

A shallow embedding of `makePuzzleToolPoses` and `cppMethod` from
`src/trajopt_examples/src/puzzle_piece_plan.cpp`.

Scalars (`double`) are taken from an arbitrary linearly ordered field `R`; the results about
frames are stated over `ℝ` with `Real.sqrt`.  What the C++ standard library and Eigen supply
(`std::stod`, `sqrt`, the content of storage that is declared but not initialised) is collected
in a `Platform` record, so every definition below stays executable.  C `int` counters
(`lnum`, `i`, `n_steps`) are unbounded integers here: the file is taken to have fewer than
`2 ^ 31` lines.
-/

namespace PuzzlePiecePlan

/-! ## Eigen vectors and transforms -/

/-- Column vector with three coefficients, `Eigen::Vector3d`. -/
structure Vector3d (R : Type) where
  x : R
  y : R
  z : R
deriving DecidableEq, Repr

namespace Vector3d

variable {R : Type} [LinearOrderedField R]

/-- Product `c * v` of a scalar and a vector. -/
def scale (c : R) (v : Vector3d R) : Vector3d R :=
  ⟨c * v.x, c * v.y, c * v.z⟩

/-- Quotient `v / c` of a vector by a scalar. -/
def divScalar (v : Vector3d R) (c : R) : Vector3d R :=
  ⟨v.x / c, v.y / c, v.z / c⟩

/-- Dot product `v.dot(w)`. -/
def dot (v w : Vector3d R) : R :=
  v.x * w.x + v.y * w.y + v.z * w.z

/-- Cross product `v.cross(w)`. -/
def cross (v w : Vector3d R) : Vector3d R :=
  ⟨v.y * w.z - v.z * w.y, v.z * w.x - v.x * w.z, v.x * w.y - v.y * w.x⟩

/-- Sum of the squared coefficients, `v.squaredNorm()`. -/
def squaredNorm (v : Vector3d R) : R :=
  v.x * v.x + v.y * v.y + v.z * v.z

/-- Euclidean length `v.norm()`, the square root of `squaredNorm`. -/
def norm (sqrt : R → R) (v : Vector3d R) : R :=
  sqrt v.squaredNorm

/-- Eigen's `normalized()` (and the in-place `normalize()`), as of Eigen 3.3: the vector
divided by its length when the squared length is positive, the vector itself otherwise. -/
def normalized (sqrt : R → R) (v : Vector3d R) : Vector3d R :=
  let z := v.squaredNorm
  if 0 < z then v.divScalar (sqrt z) else v

/-- The zero vector. -/
def zero : Vector3d R := ⟨0, 0, 0⟩

end Vector3d

/-- An `Eigen::Affine3d`, kept as the top three rows of the four columns of its matrix: the
columns 0 to 2 are the linear part (the three axes of the frame), column 3 is the
translation.  The bottom row is the constant `0 0 0 1` set by the constructor. -/
structure Affine3d (R : Type) where
  col0 : Vector3d R
  col1 : Vector3d R
  col2 : Vector3d R
  col3 : Vector3d R
deriving DecidableEq, Repr

/-- The translation part `pose.translation()`. -/
def Affine3d.translation {R : Type} (pose : Affine3d R) : Vector3d R := pose.col3

/-! ## What the run-time environment supplies -/

/-- Ways in which the program stops without returning: the two exceptions of `std::stod`
(never caught in this file), a failed Eigen index assertion, a null pointer dereference, an
access past the end of a `std::vector`. -/
inductive Exn where
  | invalid_argument
  | out_of_range
  | index_assertion
  | null_pointer
  | out_of_bounds
deriving DecidableEq, Repr

/-- Column vector with four coefficients, `Eigen::Vector4d`. -/
structure Vector4d (R : Type) where
  c0 : R
  c1 : R
  c2 : R
  c3 : R
deriving DecidableEq, Repr

/-- An `Eigen::Quaterniond` with its four coefficients. -/
structure Quaterniond (R : Type) where
  w : R
  x : R
  y : R
  z : R
deriving DecidableEq, Repr

/-- The library functions and the storage the program relies on.
`stod` is `std::stod` (an error is the exception it throws), `sqrt` is the square root used by
Eigen, `uninit lnum` is what the six coefficients of `xyzijk` hold when the vector is
declared, without initialisation, while line `lnum` is processed, and `quaternion` is the
constructor of `Eigen::Quaterniond` from the three columns of a rotation matrix. -/
structure Platform (R : Type) where
  stod : List Char → Except Exn R
  sqrt : R → R
  uninit : Nat → Fin 6 → R
  quaternion : Vector3d R → Vector3d R → Vector3d R → Quaterniond R

/-! ## Reading the file -/

/-- The strings that successive calls `std::getline(stream, s, delim)` deliver until the call
fails: the stream is cut at every delimiter, and nothing is delivered for the empty remainder
after a final delimiter (or for an empty stream). -/
def getlines (delim : Char) : List Char → List (List Char)
  | [] => []
  | c :: cs =>
    if c = delim then [] :: getlines delim cs
    else
      match getlines delim cs with
      | [] => [[c]]
      | l :: ls => (c :: l) :: ls

/-- Assignment `xyzijk(i) = d` at a valid index. -/
def setCoeff {R : Type} (xyzijk : Fin 6 → R) (i : Fin 6) (d : R) : Fin 6 → R :=
  fun j => if j = i then d else xyzijk j

/-- The inner loop of `makePuzzleToolPoses` (lines 48-56) over the cells of one line: the
counter `i` is incremented first, the cell that brings it to `-1` is skipped, every other cell
is converted by `std::stod` and stored at index `i`.  The right-hand side of the assignment
is evaluated first, so an exception of `std::stod` comes before the index assertion of
Eigen, which fails for `i` outside `0..5`. -/
def parseCells {R : Type} (stod : List Char → Except Exn R) :
    List (List Char) → Int → (Fin 6 → R) → Except Exn (Fin 6 → R)
  | [], _, xyzijk => .ok xyzijk
  | cell :: cells, i, xyzijk =>
    if i + 1 = -1 then parseCells stod cells (i + 1) xyzijk
    else
      match stod cell with
      | .error e => .error e
      | .ok d =>
        if h : 0 ≤ i + 1 ∧ i + 1 < 6 then
          parseCells stod cells (i + 1) (setCoeff xyzijk ⟨(i + 1).toNat, by omega⟩ d)
        else .error Exn.index_assertion

/-- Lines 45-56: the line `lnum` is cut at commas and its cells are stored in a fresh
`xyzijk`, starting from `i = -2`. -/
def parseRow {R : Type} (P : Platform R) (lnum : Nat) (line : List Char) :
    Except Exn (Fin 6 → R) :=
  parseCells P.stod (getlines ',' line) (-2) (P.uninit lnum)

/-- The indices at which the inner loop (lines 49-56) assigns to `xyzijk`, in order, for
the cells of a line and the counter `i` before the first of them, when no exception
intervenes: the counter after each increment, but for the cell that brings it to `-1`. -/
def writeIndices : List (List Char) → Int → List Int
  | [], _ => []
  | _ :: cells, i =>
    if i + 1 = -1 then writeIndices cells (i + 1) else (i + 1) :: writeIndices cells (i + 1)

/-- The first three coefficients, `xyzijk.head<3>()`. -/
def head3 {R : Type} (xyzijk : Fin 6 → R) : Vector3d R :=
  ⟨xyzijk 0, xyzijk 1, xyzijk 2⟩

/-- The last three coefficients, `xyzijk.tail<3>()`. -/
def tail3 {R : Type} (xyzijk : Fin 6 → R) : Vector3d R :=
  ⟨xyzijk 3, xyzijk 4, xyzijk 5⟩

/-- Lines 58-72: the frame built from the six stored coefficients. -/
def toolPose {R : Type} [LinearOrderedField R] (sqrt : R → R) (xyzijk : Fin 6 → R) :
    Affine3d R :=
  let pos := (head3 xyzijk).divScalar 1000
  let norm := (tail3 xyzijk).normalized sqrt
  let temp_x := (Vector3d.scale (-1) pos).normalized sqrt
  let y_axis := (norm.cross temp_x).normalized sqrt
  let x_axis := (y_axis.cross norm).normalized sqrt
  { col0 := x_axis, col1 := y_axis, col2 := norm, col3 := pos }

/-- The body of the outer loop for one line that is past the header (lines 45-72): the frame
of the line, or the exception that ends the program. -/
def rowPose {R : Type} [LinearOrderedField R] (P : Platform R) (lnum : Nat)
    (line : List Char) : Except Exn (Affine3d R) :=
  match parseRow P lnum line with
  | .error e => .error e
  | .ok xyzijk => .ok (toolPose P.sqrt xyzijk)

/-- The outer loop of `makePuzzleToolPoses` (lines 39-75) over the lines still to be read;
`lnum` counts the lines read so far and `path` holds the frames pushed so far. -/
def readRows {R : Type} [LinearOrderedField R] (P : Platform R) :
    List (List Char) → Nat → List (Affine3d R) → Except Exn (List (Affine3d R))
  | [], _, path => .ok path
  | line :: rest, lnum, path =>
    if lnum + 1 < 3 then readRows P rest (lnum + 1) path
    else
      match rowPose P (lnum + 1) line with
      | .error e => .error e
      | .ok pose => readRows P rest (lnum + 1) (path ++ [pose])

/-- The lines of the file, as the outer `std::getline` loop sees them. -/
def fileLines (file : String) : List (List Char) :=
  getlines '\n' file.toList

/-- Function `makePuzzleToolPoses` on the content of `config/puzzle_bent.csv` (the empty
content when the file cannot be opened). -/
def makePuzzleToolPoses {R : Type} [LinearOrderedField R] (P : Platform R) (file : String) :
    Except Exn (List (Affine3d R)) :=
  readRows P (fileLines file) 0 []

/-! ## The problem description -/

/-- Classification of a term, `TT_COST` or `TT_CNT`. -/
inductive TermType where
  | TT_COST
  | TT_CNT
deriving DecidableEq, Repr

/-- The fields that `cppMethod` sets in a `JointVelCostInfo`, a `JointAccCostInfo` or a
`JointJerkCostInfo`. -/
structure JointCostInfo (R : Type) where
  coeffs : List R
  name : String
  term_type : TermType
deriving DecidableEq, Repr

/-- Modelled from the spec: one entry of the safety-margin table that
`createSafetyMarginDataVector` returns (a margin distance and a coefficient); the function is
declared in the trajopt package, outside this file. -/
structure SafetyMarginData (R : Type) where
  margin : R
  coeff : R
deriving DecidableEq, Repr

/-- Modelled from the spec: `createSafetyMarginDataVector(n, margin, coeff)` is the table with
one entry per step, every entry holding the same margin distance and the same coefficient. -/
def createSafetyMarginDataVector {R : Type} (num_elements : Int) (margin coeff : R) :
    List (SafetyMarginData R) :=
  List.replicate num_elements.toNat { margin := margin, coeff := coeff }

/-- The fields that `cppMethod` sets in a `CollisionCostInfo`. -/
structure CollisionCostInfo (R : Type) where
  name : String
  term_type : TermType
  continuous : Bool
  first_step : Int
  last_step : Int
  gap : Int
  info : List (SafetyMarginData R)
deriving DecidableEq, Repr

/-- The fields that `cppMethod` sets in a `PoseCostInfo`. -/
structure PoseCostInfo (R : Type) where
  term_type : TermType
  name : String
  link : String
  tcp : Affine3d R
  timestep : Int
  xyz : Vector3d R
  wxyz : Vector4d R
  pos_coeffs : Vector3d R
  rot_coeffs : Vector3d R
deriving DecidableEq, Repr

/-- The term descriptors that `cppMethod` pushes on `cost_infos` and `cnt_infos`, one
constructor per class. -/
inductive TermInfo (R : Type) where
  | JointVel (info : JointCostInfo R)
  | JointAcc (info : JointCostInfo R)
  | JointJerk (info : JointCostInfo R)
  | Collision (info : CollisionCostInfo R)
  | Pose (info : PoseCostInfo R)
deriving DecidableEq, Repr

/-- Fields of `pci.basic_info` set by `cppMethod`. -/
structure BasicInfo where
  n_steps : Int
  manip : String
  start_fixed : Bool
deriving DecidableEq, Repr

/-- Fields of `pci.opt_info` set by `cppMethod`. -/
structure OptInfo (R : Type) where
  max_iter : Int
  min_approx_improve : R
  min_trust_box_size : R
deriving DecidableEq, Repr

/-- Kind of initial trajectory, `InitInfo::Type`; `cppMethod` uses `GIVEN_TRAJ` only. -/
inductive InitType where
  | STATIONARY
  | GIVEN_TRAJ
deriving DecidableEq, Repr

/-- Fields of `pci.init_info`: the kind and the trajectory matrix, kept as its list of rows. -/
structure InitInfo (R : Type) where
  type : InitType
  data : List (List R)
deriving DecidableEq, Repr

/-- The kinematics object of a manipulator, as far as `cppMethod` uses it (`getName`). -/
structure BasicKin where
  getName : String
deriving DecidableEq, Repr

/-- The `ProblemConstructionInfo` returned by `cppMethod`; the two term lists start empty. -/
structure ProblemConstructionInfo (R : Type) where
  basic_info : BasicInfo
  opt_info : OptInfo R
  kin : BasicKin
  init_info : InitInfo R
  cost_infos : List (TermInfo R)
  cnt_infos : List (TermInfo R)
deriving DecidableEq, Repr

/-- The calls that `cppMethod` makes on the environment `env_`.  `getManipulator` returns a
shared pointer, `none` standing for the null pointer. -/
structure Env (R : Type) where
  getManipulator : String → Option BasicKin
  getCurrentJointValues : String → List R
  getLinkTransform : String → Affine3d R

/-- Line 141: the translation of the transform of the link `grinder_frame`. -/
def stationary_xyz {R : Type} (env : Env R) : Vector3d R :=
  (env.getLinkTransform "grinder_frame").translation

/-- Lines 139 and 142: the coefficients `w, x, y, z` of the quaternion of the linear part of
the transform of the link `grinder_frame`. -/
def stationary_wxyz {R : Type} (P : Platform R) (env : Env R) : Vector4d R :=
  let grinder_frame := env.getLinkTransform "grinder_frame"
  let q := P.quaternion grinder_frame.col0 grinder_frame.col1 grinder_frame.col2
  ⟨q.w, q.x, q.y, q.z⟩

/-- The `PoseCostInfo` built by one round of the loop at lines 144-158. -/
def poseCnt {R : Type} [LinearOrderedField R] (stationary_xyz : Vector3d R)
    (stationary_wxyz : Vector4d R) (i : Nat) (tcp : Affine3d R) : PoseCostInfo R :=
  { term_type := TermType.TT_CNT
    name := "waypoint_cart_" ++ toString i
    link := "part"
    tcp := tcp
    timestep := i
    xyz := stationary_xyz
    wxyz := stationary_wxyz
    pos_coeffs := ⟨10, 10, 10⟩
    rot_coeffs := ⟨10, 10, 0⟩ }

/-- The loop at lines 144-158 over the values that `i` still has to take: each round reads
`tool_poses[i]` and pushes one term on `cnt_infos`. -/
def pushPoseCnts {R : Type} [LinearOrderedField R] (tool_poses : List (Affine3d R))
    (stationary_xyz : Vector3d R) (stationary_wxyz : Vector4d R) :
    List Nat → List (TermInfo R) → Except Exn (List (TermInfo R))
  | [], cnt_infos => .ok cnt_infos
  | i :: rest, cnt_infos =>
    match tool_poses[i]? with
    | none => .error Exn.out_of_bounds
    | some tcp =>
      pushPoseCnts tool_poses stationary_xyz stationary_wxyz rest
        (cnt_infos ++ [TermInfo.Pose (poseCnt stationary_xyz stationary_wxyz i tcp)])

/-- Lines 87-160 of `cppMethod`, from the tool poses that `makePuzzleToolPoses` returned.
The step count `n_steps` is an `int`; the length of the path is taken to be below `2 ^ 31`.
A null pointer returned by `getManipulator` is dereferenced at line 100. -/
def cppMethodFrom {R : Type} [LinearOrderedField R] (P : Platform R) (env : Env R)
    (tool_poses : List (Affine3d R)) : Except Exn (ProblemConstructionInfo R) :=
  let n_steps : Int := tool_poses.length
  let manip := "manipulator"
  match env.getManipulator manip with
  | none => .error Exn.null_pointer
  | some kin =>
    let start_pos := env.getCurrentJointValues kin.getName
    let data := List.replicate n_steps.toNat start_pos
    let joint_vel : JointCostInfo R :=
      { coeffs := List.replicate 7 1, name := "joint_vel", term_type := TermType.TT_COST }
    let joint_acc : JointCostInfo R :=
      { coeffs := List.replicate 7 2, name := "joint_acc", term_type := TermType.TT_COST }
    let joint_jerk : JointCostInfo R :=
      { coeffs := List.replicate 7 5, name := "joint_jerk", term_type := TermType.TT_COST }
    let collision : CollisionCostInfo R :=
      { name := "collision"
        term_type := TermType.TT_COST
        continuous := false
        first_step := 0
        last_step := n_steps - 1
        gap := 1
        info := createSafetyMarginDataVector n_steps (25 / 1000) 20 }
    let cost_infos :=
      [TermInfo.JointVel joint_vel, TermInfo.JointAcc joint_acc, TermInfo.JointJerk joint_jerk,
        TermInfo.Collision collision]
    match pushPoseCnts tool_poses (stationary_xyz env) (stationary_wxyz P env)
        (List.range n_steps.toNat) [] with
    | .error e => .error e
    | .ok cnt_infos =>
      .ok
        { basic_info := { n_steps := n_steps, manip := manip, start_fixed := false }
          opt_info :=
            { max_iter := 200, min_approx_improve := 1 / 1000, min_trust_box_size := 1 / 1000 }
          kin := kin
          init_info := { type := InitType.GIVEN_TRAJ, data := data }
          cost_infos := cost_infos
          cnt_infos := cnt_infos }

/-- Function `cppMethod`: the tool poses are read from the file, then the problem is built. -/
def cppMethod {R : Type} [LinearOrderedField R] (P : Platform R) (env : Env R)
    (file : String) : Except Exn (ProblemConstructionInfo R) :=
  match makePuzzleToolPoses P file with
  | .error e => .error e
  | .ok tool_poses => cppMethodFrom P env tool_poses

/-! ## The solve-and-verify part of `main` -/

/-- The problem object returned by `ConstructProblem`, as far as lines 209-238 read it: the
joint and link names of its kinematics and its initial trajectory. -/
structure TrajOptProb (R : Type) where
  getJointNames : List String
  getLinkNames : List String
  GetInitTraj : List (List R)

/-- The calls that lines 209-238 of `main` make outside this file, for a type `S` of solver
termination statuses and a type `D` of collision results.
`continuousCollisionCheckTrajectory` returns what the query puts in the (empty) vector
`collisions`; `optimize` stands for a solver built on the problem, given its parameters,
whether the plot callback was added, and the start vector, and returns the status with the
final vector `opt.x()`; the solver is taken to return. -/
structure Collaborators (R S D : Type) where
  continuousCollisionCheckTrajectory : List String → List String → List (List R) → List D
  trajToDblVec : List (List R) → List R
  optimize : TrajOptProb R → OptInfo R → Bool → List R → S × List R
  getTraj : TrajOptProb R → List R → List (List R)

/-- What `main` does at lines 209-238, one event per call or log line, in program order. -/
inductive Event (R S : Type) where
  | collisionCheck (joint_names link_names : List String) (traj : List (List R))
  | infoInitial (collisions : Nat)
  | setParameters (opt_info : OptInfo R)
  | addCallback
  | start (x : List R)
  | optimize
  | infoStatus (status : S)
  | plotClear
  | plotTrajectory (joint_names : List String) (traj : List (List R))
  | infoFinal (collisions : Nat)

/-- The event is a run of the solver. -/
def Event.isOptimize {R S : Type} : Event R S → Bool
  | Event.optimize => true
  | _ => false

/-- The event is the start of the solver from a vector, `opt.initialize(x)`. -/
def Event.isStart {R S : Type} : Event R S → Bool
  | Event.start _ => true
  | _ => false

/-- The event is a continuous collision query. -/
def Event.isCollisionCheck {R S : Type} : Event R S → Bool
  | Event.collisionCheck _ _ _ => true
  | _ => false

/-- Lines 209-238 of `main`: the events raised, in order, for the problem description `pci`
returned by `cppMethod` and the problem `prob` constructed from it.  The planning time in
the status line is left out. -/
def mainSolve {R S D : Type} (W : Collaborators R S D) (plotting_ : Bool)
    (pci : ProblemConstructionInfo R) (prob : TrajOptProb R) : List (Event R S) :=
  let joint_names := prob.getJointNames
  let link_names := prob.getLinkNames
  let collisions :=
    W.continuousCollisionCheckTrajectory joint_names link_names prob.GetInitTraj
  let x0 := W.trajToDblVec prob.GetInitTraj
  let result := W.optimize prob pci.opt_info plotting_ x0
  let traj := W.getTraj prob result.2
  let final_collisions := W.continuousCollisionCheckTrajectory joint_names link_names traj
  [Event.collisionCheck joint_names link_names prob.GetInitTraj,
      Event.infoInitial collisions.length, Event.setParameters pci.opt_info] ++
    (if plotting_ then [Event.addCallback] else []) ++
    [Event.start x0, Event.optimize, Event.infoStatus result.1] ++
    (if plotting_ then [Event.plotClear] else []) ++
    [Event.plotTrajectory joint_names traj, Event.collisionCheck joint_names link_names traj,
      Event.infoFinal final_collisions.length]

/-! ## Determinant of a frame -/

/-- Determinant of the linear part of a transform, as the triple product of its columns. -/
def Affine3d.linearDet {R : Type} [LinearOrderedField R] (pose : Affine3d R) : R :=
  (pose.col0.cross pose.col1).dot pose.col2

/-! ## A decimal instance of `std::stod` -/

/-- Characters that `std::isspace` accepts in the C locale. -/
def isSpace (c : Char) : Bool :=
  c = ' ' || (9 ≤ c.toNat && c.toNat ≤ 13)

/-- Value of a decimal digit. -/
def digitVal (c : Char) : Option Nat :=
  if 48 ≤ c.toNat ∧ c.toNat ≤ 57 then some (c.toNat - 48) else none

/-- Reads the longest run of decimal digits at the front: the value accumulated on `acc`, the
number of digits read added to `n`, and the characters left. -/
def readDigits : List Char → Nat → Nat → Nat × Nat × List Char
  | [], acc, n => (acc, n, [])
  | c :: cs, acc, n =>
    match digitVal c with
    | some d => readDigits cs (10 * acc + d) (n + 1)
    | none => (acc, n, c :: cs)

/-- Reads an optional sign: whether it is a minus, and the characters left. -/
def readSign : List Char → Bool × List Char
  | '-' :: cs => (true, cs)
  | '+' :: cs => (false, cs)
  | cs => (false, cs)

/-- The exponent part of a decimal literal, `e` or `E`, an optional sign and at least one
digit; `0` when the characters do not start with one. -/
def readExponent : List Char → Int
  | c :: cs =>
    if c = 'e' ∨ c = 'E' then
      let (neg, ds) := readSign cs
      let (v, n, _) := readDigits ds 0 0
      if n = 0 then 0 else if neg then -(v : Int) else (v : Int)
    else 0
  | [] => 0

/-- The digits of a decimal literal read from the front of a cell, as `strtod` reads them:
leading white space, an optional sign, digits with an optional point, an optional exponent;
characters after the literal are ignored.  The result is the sign, the digits as one natural
number, the number of digits after the point and the exponent; `none` when no digit is
found. -/
def readDecimal (cell : List Char) : Option (Bool × Nat × Nat × Int) :=
  let (neg, s) := readSign (cell.dropWhile isSpace)
  let (ip, ni, s) := readDigits s 0 0
  let (m, nf, s) :=
    match s with
    | '.' :: t => readDigits t ip 0
    | _ => (ip, 0, s)
  if ni + nf = 0 then none else some (neg, m, nf, readExponent s)

/-- An instance of `std::stod` for decimal literals, with exact values: the cell is converted
when it starts with a decimal literal and `std::invalid_argument` is thrown otherwise.
Hexadecimal literals, `inf`, `nan`, rounding and range errors are outside this instance; the
general results below hold for every `stod`. -/
def stodDecimal {R : Type} [LinearOrderedField R] (cell : List Char) : Except Exn R :=
  match readDecimal cell with
  | none => .error Exn.invalid_argument
  | some (neg, m, nf, e) =>
    .ok ((if neg then -1 else 1) * (m : R) / 10 ^ nf * 10 ^ e)

/-- The platform with `stodDecimal`, a given square root and given storage contents; the
quaternion constructor, which no result below depends on, returns the identity rotation. -/
def decimalPlatform {R : Type} [LinearOrderedField R] (sqrt : R → R)
    (uninit : Nat → Fin 6 → R) : Platform R :=
  { stod := stodDecimal, sqrt := sqrt, uninit := uninit, quaternion := fun _ _ _ => ⟨1, 0, 0, 0⟩ }

/-! ## Sample inputs -/

/-- A platform over the rationals: decimal `std::stod`, storage holding zeros; the square
root is a stand-in that no evaluation below calls on a positive argument. -/
def samplePlatform : Platform ℚ :=
  decimalPlatform id (fun _ _ => 0)

/-- An environment that knows the manipulator, with seven joint values and a transform for
the link `grinder_frame`. -/
def sampleEnv : Env ℚ :=
  { getManipulator := fun _ => some ⟨"manipulator"⟩
    getCurrentJointValues := fun _ => [1, 2, 3, 4, 5, 6, 7]
    getLinkTransform := fun _ => ⟨⟨1, 0, 0⟩, ⟨0, 1, 0⟩, ⟨0, 0, 1⟩, ⟨4, 5, 6⟩⟩ }

/-- An environment as `sampleEnv`, for a manipulator with six joints. -/
def sampleEnvSix : Env ℚ :=
  { getManipulator := fun _ => some ⟨"manipulator"⟩
    getCurrentJointValues := fun _ => [1, 2, 3, 4, 5, 6]
    getLinkTransform := fun _ => ⟨⟨1, 0, 0⟩, ⟨0, 1, 0⟩, ⟨0, 0, 1⟩, ⟨4, 5, 6⟩⟩ }

/-- A tool path of two frames. -/
def samplePath : List (Affine3d ℚ) :=
  [⟨⟨1, 0, 0⟩, ⟨0, 1, 0⟩, ⟨0, 0, 1⟩, ⟨0, 0, 0⟩⟩, ⟨⟨1, 0, 0⟩, ⟨0, 1, 0⟩, ⟨0, 0, 1⟩, ⟨1, 2, 3⟩⟩]

/-! ## Predicates used in the statements -/

/-- The three axes of a frame are pairwise orthogonal and each has length one. -/
def Orthonormal {R : Type} [LinearOrderedField R] (sqrt : R → R) (pose : Affine3d R) : Prop :=
  pose.col0.dot pose.col1 = 0 ∧ pose.col0.dot pose.col2 = 0 ∧ pose.col1.dot pose.col2 = 0 ∧
    pose.col0.norm sqrt = 1 ∧ pose.col1.norm sqrt = 1 ∧ pose.col2.norm sqrt = 1

/-- A line that the inner loop reads to its end: it has at most seven cells and `std::stod`
converts every cell after the first. -/
def rowAccepted {R : Type} (P : Platform R) (line : List Char) : Bool :=
  decide ((getlines ',' line).length ≤ 7) &&
    (getlines ',' line).tail.all (fun cell => (P.stod cell).toBool)

/-! ## Vector algebra -/

section VectorLemmas

open Vector3d

variable {R : Type} [LinearOrderedField R]

theorem squaredNorm_nonneg (v : Vector3d R) : 0 ≤ v.squaredNorm := by
  unfold squaredNorm
  have h1 := mul_self_nonneg v.x
  have h2 := mul_self_nonneg v.y
  have h3 := mul_self_nonneg v.z
  linarith

theorem squaredNorm_eq_zero_iff (v : Vector3d R) : v.squaredNorm = 0 ↔ v = zero := by
  constructor
  · intro h
    unfold squaredNorm at h
    have h1 := mul_self_nonneg v.x
    have h2 := mul_self_nonneg v.y
    have h3 := mul_self_nonneg v.z
    have hx : v.x * v.x = 0 := by linarith
    have hy : v.y * v.y = 0 := by linarith
    have hz : v.z * v.z = 0 := by linarith
    cases v with
    | mk x y z =>
      simp only [mul_self_eq_zero] at hx hy hz
      simp [zero, hx, hy, hz]
  · intro h
    subst h
    simp [squaredNorm, zero]

theorem squaredNorm_pos_of_ne_zero (v : Vector3d R) (h : v ≠ zero) : 0 < v.squaredNorm := by
  rcases (squaredNorm_nonneg v).lt_or_eq with h1 | h1
  · exact h1
  · exact absurd ((squaredNorm_eq_zero_iff v).1 h1.symm) h

theorem normalized_zero (sqrt : R → R) : normalized sqrt (zero : Vector3d R) = zero := by
  simp [normalized, squaredNorm, zero]

theorem cross_zero_left (v : Vector3d R) : cross zero v = zero := by
  simp [cross, zero]

theorem cross_zero_right (v : Vector3d R) : cross v zero = zero := by
  simp [cross, zero]

theorem squaredNorm_scale (c : R) (v : Vector3d R) :
    (scale c v).squaredNorm = c * c * v.squaredNorm := by
  simp only [scale, squaredNorm]; ring

theorem cross_scale_scale (a b : R) (v w : Vector3d R) :
    cross (scale a v) (scale b w) = scale (a * b) (cross v w) := by
  simp only [scale, cross, Vector3d.mk.injEq]
  refine ⟨?_, ?_, ?_⟩ <;> ring

theorem dot_cross_left (v w : Vector3d R) : dot (cross v w) v = 0 := by
  simp only [dot, cross]; ring

theorem dot_cross_right (v w : Vector3d R) : dot (cross v w) w = 0 := by
  simp only [dot, cross]; ring

theorem dot_scale_left (c : R) (v w : Vector3d R) : dot (scale c v) w = c * dot v w := by
  simp only [dot, scale]; ring

theorem dot_comm (v w : Vector3d R) : dot v w = dot w v := by
  simp only [dot]; ring

theorem squaredNorm_cross (v w : Vector3d R) :
    (cross v w).squaredNorm = v.squaredNorm * w.squaredNorm - dot v w * dot v w := by
  simp only [dot, cross, squaredNorm]; ring

theorem divScalar_one (v : Vector3d R) : v.divScalar 1 = v := by
  cases v; simp [divScalar]

theorem divScalar_eq_scale (v : Vector3d R) (c : R) : v.divScalar c = scale c⁻¹ v := by
  simp only [divScalar, scale, Vector3d.mk.injEq]
  refine ⟨?_, ?_, ?_⟩ <;> field_simp

/-- Over the reals a vector of positive squared length is normalised to a positive multiple
of itself, of squared length one. -/
theorem normalized_real (v : Vector3d ℝ) (h : 0 < v.squaredNorm) :
    ∃ k : ℝ, 0 < k ∧ normalized Real.sqrt v = scale k v ∧
      (normalized Real.sqrt v).squaredNorm = 1 := by
  have hs : 0 < Real.sqrt v.squaredNorm := Real.sqrt_pos.2 h
  refine ⟨(Real.sqrt v.squaredNorm)⁻¹, inv_pos.2 hs, ?_, ?_⟩
  · simp only [normalized, if_pos h, divScalar_eq_scale]
  · simp only [normalized, if_pos h, divScalar_eq_scale, squaredNorm_scale]
    have h2 : Real.sqrt v.squaredNorm * Real.sqrt v.squaredNorm = v.squaredNorm :=
      Real.mul_self_sqrt h.le
    rw [← mul_inv, h2]
    exact inv_mul_cancel₀ (ne_of_gt h)

end VectorLemmas

/-! ## The frame of one row -/

section FrameLemmas

open Vector3d

theorem scale_scale {R : Type} [LinearOrderedField R] (a b : R) (v : Vector3d R) :
    scale a (scale b v) = scale (a * b) v := by
  simp only [scale, Vector3d.mk.injEq]
  refine ⟨?_, ?_, ?_⟩ <;> ring

theorem cross_swap {R : Type} [LinearOrderedField R] (v w : Vector3d R) :
    cross v w = scale (-1) (cross w v) := by
  simp only [scale, cross, Vector3d.mk.injEq]
  refine ⟨?_, ?_, ?_⟩ <;> ring

theorem scale_ne_zero {R : Type} [LinearOrderedField R] (c : R) (v : Vector3d R) (hc : c ≠ 0)
    (hv : v ≠ zero) : scale c v ≠ zero := by
  intro h
  apply hv
  have h1 := squaredNorm_scale c v
  rw [h, (squaredNorm_eq_zero_iff _).2 rfl] at h1
  have h2 : c * c ≠ 0 := mul_ne_zero hc hc
  have h3 : v.squaredNorm = 0 := by
    rcases mul_eq_zero.1 h1.symm with h4 | h4
    · exact absurd h4 h2
    · exact h4
  exact (squaredNorm_eq_zero_iff v).1 h3

/-- Over the reals, when the position of the row is not parallel to its normal, lines 58-72
build three pairwise orthogonal axes of length one. -/
theorem toolPose_orthonormal_real (xyzijk : Fin 6 → ℝ)
    (h : (head3 xyzijk).cross (tail3 xyzijk) ≠ zero) :
    Orthonormal Real.sqrt (toolPose Real.sqrt xyzijk) := by
  have hn0 : tail3 xyzijk ≠ zero := fun h0 => h (by rw [h0]; exact cross_zero_right _)
  have hp0 : head3 xyzijk ≠ zero := fun h0 => h (by rw [h0]; exact cross_zero_left _)
  obtain ⟨k1, hk1, e1, u1⟩ := normalized_real (tail3 xyzijk) (squaredNorm_pos_of_ne_zero _ hn0)
  have hpos : scale (-1) ((head3 xyzijk).divScalar 1000) = scale (-1 * 1000⁻¹) (head3 xyzijk) := by
    rw [divScalar_eq_scale, scale_scale]
  have hposne : scale (-1 * 1000⁻¹) (head3 xyzijk) ≠ zero :=
    scale_ne_zero _ _ (by norm_num) hp0
  obtain ⟨k2, hk2, e2, -⟩ := normalized_real _ (squaredNorm_pos_of_ne_zero _ hposne)
  have hc : cross (normalized Real.sqrt (tail3 xyzijk))
      (normalized Real.sqrt (scale (-1) ((head3 xyzijk).divScalar 1000))) =
      scale (k1 * (k2 * (-1 * 1000⁻¹)) * -1) (cross (head3 xyzijk) (tail3 xyzijk)) := by
    rw [hpos, e1, e2, scale_scale, cross_scale_scale, cross_swap (tail3 xyzijk), scale_scale]
  have hcne : cross (normalized Real.sqrt (tail3 xyzijk))
      (normalized Real.sqrt (scale (-1) ((head3 xyzijk).divScalar 1000))) ≠ zero := by
    rw [hc]
    refine scale_ne_zero _ _ ?_ h
    have h1 : k1 ≠ 0 := ne_of_gt hk1
    have h2 : k2 ≠ 0 := ne_of_gt hk2
    have h3 : (-1 * 1000⁻¹ : ℝ) ≠ 0 := by norm_num
    exact mul_ne_zero (mul_ne_zero h1 (mul_ne_zero h2 h3)) (by norm_num)
  obtain ⟨k3, -, e3, u3⟩ := normalized_real _ (squaredNorm_pos_of_ne_zero _ hcne)
  have hyn : dot (normalized Real.sqrt (cross (normalized Real.sqrt (tail3 xyzijk))
      (normalized Real.sqrt (scale (-1) ((head3 xyzijk).divScalar 1000)))))
      (normalized Real.sqrt (tail3 xyzijk)) = 0 := by
    rw [e3, dot_scale_left, dot_cross_left, mul_zero]
  have hsq : (cross (normalized Real.sqrt (cross (normalized Real.sqrt (tail3 xyzijk))
      (normalized Real.sqrt (scale (-1) ((head3 xyzijk).divScalar 1000)))))
      (normalized Real.sqrt (tail3 xyzijk))).squaredNorm = 1 := by
    rw [squaredNorm_cross, u3, u1, hyn]; norm_num
  have hx : normalized Real.sqrt (cross (normalized Real.sqrt (cross
      (normalized Real.sqrt (tail3 xyzijk))
      (normalized Real.sqrt (scale (-1) ((head3 xyzijk).divScalar 1000)))))
      (normalized Real.sqrt (tail3 xyzijk))) =
      cross (normalized Real.sqrt (cross (normalized Real.sqrt (tail3 xyzijk))
      (normalized Real.sqrt (scale (-1) ((head3 xyzijk).divScalar 1000)))))
      (normalized Real.sqrt (tail3 xyzijk)) := by
    rw [normalized]
    simp only [hsq, zero_lt_one, if_true, Real.sqrt_one, divScalar_one]
  simp only [Orthonormal, toolPose, Vector3d.norm]
  rw [hx]
  refine ⟨dot_cross_left _ _, dot_cross_right _ _, hyn, ?_, ?_, ?_⟩
  · rw [hsq, Real.sqrt_one]
  · rw [u3, Real.sqrt_one]
  · rw [u1, Real.sqrt_one]

end FrameLemmas

/-! ## The cells of one row -/

section ParseLemmas

variable {R : Type}

theorem setCoeff_apply (g : Fin 6 → R) (i j : Fin 6) (d : R) :
    setCoeff g i d j = if j = i then d else g j := rfl

/-- The first cell of a line is skipped. -/
theorem parseCells_first (stod : List Char → Except Exn R) (cell : List Char)
    (cells : List (List Char)) (g : Fin 6 → R) :
    parseCells stod (cell :: cells) (-2) g = parseCells stod cells (-1) g := by
  simp [parseCells]

/-- Past the first cell, the loop succeeds when at most `6 - (i + 1)` cells are left and
`std::stod` converts each of them. -/
theorem parseCells_ok_of_all (stod : List Char → Except Exn R) :
    ∀ (cells : List (List Char)) (i : Int) (g : Fin 6 → R), -1 ≤ i →
      i + 1 + (cells.length : Int) ≤ 6 → (∀ c ∈ cells, ∃ d, stod c = .ok d) →
      ∃ v, parseCells stod cells i g = .ok v := by
  intro cells
  induction cells with
  | nil => intro i g _ _ _; exact ⟨g, rfl⟩
  | cons cell rest ih =>
    intro i g hi hlen hall
    obtain ⟨d, hd⟩ := hall cell (List.mem_cons_self _ _)
    have hne : ¬ (i + 1 = -1) := by omega
    have hlen2 : (((cell :: rest).length : Nat) : Int) = (rest.length : Int) + 1 := by
      simp
    have hr : 0 ≤ i + 1 ∧ i + 1 < 6 := by omega
    unfold parseCells
    rw [if_neg hne, hd]
    simp only [dif_pos hr]
    exact ih (i + 1) _ (by omega) (by omega) (fun c hc => hall c (List.mem_cons_of_mem _ hc))

/-- Past the first cell, a cell that `std::stod` rejects makes the loop fail. -/
theorem parseCells_error_of_mem (stod : List Char → Except Exn R) :
    ∀ (cells : List (List Char)) (i : Int) (g : Fin 6 → R), -1 ≤ i →
      (∃ c ∈ cells, ∃ e, stod c = .error e) → ∃ e, parseCells stod cells i g = .error e := by
  intro cells
  induction cells with
  | nil => intro i g _ h; obtain ⟨c, hc, _⟩ := h; cases hc
  | cons cell rest ih =>
    intro i g hi h
    obtain ⟨c, hc, e, he⟩ := h
    have hne : ¬ (i + 1 = -1) := by omega
    unfold parseCells
    rw [if_neg hne]
    cases hcell : stod cell with
    | error e1 => exact ⟨e1, rfl⟩
    | ok d =>
      by_cases hr : 0 ≤ i + 1 ∧ i + 1 < 6
      · simp only [dif_pos hr]
        rcases List.mem_cons.1 hc with h1 | h1
        · rw [h1, hcell] at he; cases he
        · exact ih (i + 1) _ (by omega) ⟨c, h1, e, he⟩
      · simp only [dif_neg hr]
        exact ⟨_, rfl⟩

/-- Past the first cell, more cells than coefficients are left make the loop fail. -/
theorem parseCells_error_of_long (stod : List Char → Except Exn R) :
    ∀ (cells : List (List Char)) (i : Int) (g : Fin 6 → R), -1 ≤ i → i ≤ 5 →
      6 < i + 1 + (cells.length : Int) → ∃ e, parseCells stod cells i g = .error e := by
  intro cells
  induction cells with
  | nil => intro i g hi hi5 h; simp at h; omega
  | cons cell rest ih =>
    intro i g hi hi5 h
    have hne : ¬ (i + 1 = -1) := by omega
    have hlen2 : (((cell :: rest).length : Nat) : Int) = (rest.length : Int) + 1 := by
      simp
    unfold parseCells
    rw [if_neg hne]
    cases hcell : stod cell with
    | error e1 => exact ⟨e1, rfl⟩
    | ok d =>
      by_cases hr : 0 ≤ i + 1 ∧ i + 1 < 6
      · simp only [dif_pos hr]
        exact ih (i + 1) _ (by omega) (by omega) (by omega)
      · simp only [dif_neg hr]
        exact ⟨_, rfl⟩

/-- What a successful run of the loop past the first cell leaves in `xyzijk`: the cell `k`
of the remaining ones is converted and stored at index `i + 1 + k`, and the coefficients
outside the written range keep what they held. -/
theorem parseCells_ok_spec (stod : List Char → Except Exn R) :
    ∀ (cells : List (List Char)) (i : Int) (g v : Fin 6 → R), -1 ≤ i →
      parseCells stod cells i g = .ok v →
      (∀ j : Fin 6, ((j.val : Int) ≤ i ∨ i + (cells.length : Int) < (j.val : Int)) →
          v j = g j) ∧
      (∀ (k : Nat) (cell : List Char) (j : Fin 6), cells[k]? = some cell →
          (j.val : Int) = i + 1 + (k : Int) → stod cell = .ok (v j)) := by
  intro cells
  induction cells with
  | nil =>
    intro i g v _ h
    simp only [parseCells, Except.ok.injEq] at h
    subst h
    exact ⟨fun _ _ => rfl, fun k cell j hk => by simp at hk⟩
  | cons cell rest ih =>
    intro i g v hi h
    have hne : ¬ (i + 1 = -1) := by omega
    have hlen2 : (((cell :: rest).length : Nat) : Int) = (rest.length : Int) + 1 := by
      simp
    unfold parseCells at h
    rw [if_neg hne] at h
    cases hcell : stod cell with
    | error e1 => rw [hcell] at h; cases h
    | ok d =>
      rw [hcell] at h
      by_cases hr : 0 ≤ i + 1 ∧ i + 1 < 6
      · simp only [dif_pos hr] at h
        obtain ⟨ih1, ih2⟩ := ih (i + 1) _ v (by omega) h
        refine ⟨?_, ?_⟩
        · intro j hj
          rw [ih1 j (by omega), setCoeff_apply, if_neg]
          intro hji
          have := congrArg Fin.val hji
          simp only at this
          omega
        · intro k c j hk hjk
          cases k with
          | zero =>
            simp only [List.getElem?_cons_zero, Option.some.injEq] at hk
            subst hk
            rw [ih1 j (by omega), setCoeff_apply, if_pos, hcell]
            apply Fin.ext
            simp only
            omega
          | succ k =>
            simp only [List.getElem?_cons_succ] at hk
            exact ih2 k c j hk (by push_cast at hjk ⊢; omega)
      · simp only [dif_neg hr] at h
        cases h

end ParseLemmas

/-! ## Rows and the whole file -/

section RowLemmas

variable {R : Type}

/-- A line with at most seven cells, all but the first converted by `std::stod`, is read to
its end. -/
theorem parseRow_ok_of_accepted (P : Platform R) (lnum : Nat) (line : List Char)
    (h : rowAccepted P line = true) : ∃ v, parseRow P lnum line = .ok v := by
  unfold rowAccepted at h
  unfold parseRow
  cases hc : getlines ',' line with
  | nil => exact ⟨_, rfl⟩
  | cons cell rest =>
    rw [hc] at h
    simp only [List.length_cons, List.tail_cons, Bool.and_eq_true, decide_eq_true_eq,
      List.all_eq_true] at h
    rw [parseCells_first]
    refine parseCells_ok_of_all P.stod rest (-1) _ (le_refl _) (by omega) ?_
    intro c hmem
    have h2 := h.2 c hmem
    cases hs : P.stod c with
    | error e => rw [hs] at h2; cases h2
    | ok d => exact ⟨d, rfl⟩

/-- A cell after the first that `std::stod` rejects ends the program. -/
theorem parseRow_error_of_rejected (P : Platform R) (lnum : Nat) (line : List Char) (j : Nat)
    (cell : List Char) (e : Exn) (hcell : (getlines ',' line)[j + 1]? = some cell)
    (he : P.stod cell = .error e) : ∃ e1, parseRow P lnum line = .error e1 := by
  unfold parseRow
  cases hc : getlines ',' line with
  | nil => rw [hc] at hcell; simp at hcell
  | cons c0 rest =>
    rw [hc] at hcell
    simp only [List.getElem?_cons_succ] at hcell
    rw [parseCells_first]
    exact parseCells_error_of_mem P.stod rest (-1) _ (le_refl _)
      ⟨cell, List.getElem?_mem hcell, e, he⟩

/-- A line with more than seven cells ends the program. -/
theorem parseRow_error_of_long (P : Platform R) (lnum : Nat) (line : List Char)
    (h : 7 < (getlines ',' line).length) : ∃ e, parseRow P lnum line = .error e := by
  unfold parseRow
  cases hc : getlines ',' line with
  | nil => rw [hc] at h; simp at h
  | cons c0 rest =>
    rw [hc] at h
    simp only [List.length_cons] at h
    rw [parseCells_first]
    exact parseCells_error_of_long P.stod rest (-1) _ (le_refl _) (by omega) (by omega)

/-- What a line that is read to its end leaves in `xyzijk`: coefficient `j` is the
conversion of cell `j + 1` (counting cells from 0) when the line has that cell, and is what
the storage held before otherwise. -/
theorem parseRow_ok_spec (P : Platform R) (lnum : Nat) (line : List Char) (v : Fin 6 → R)
    (h : parseRow P lnum line = .ok v) :
    (∀ (j : Fin 6) (cell : List Char), (getlines ',' line)[j.val + 1]? = some cell →
        P.stod cell = .ok (v j)) ∧
    (∀ j : Fin 6, (getlines ',' line).length ≤ j.val + 1 → v j = P.uninit lnum j) := by
  unfold parseRow at h
  cases hc : getlines ',' line with
  | nil =>
    rw [hc] at h
    simp only [parseCells, Except.ok.injEq] at h
    subst h
    exact ⟨fun j cell hj => by simp at hj, fun _ _ => rfl⟩
  | cons c0 rest =>
    rw [hc, parseCells_first] at h
    obtain ⟨h1, h2⟩ := parseCells_ok_spec P.stod rest (-1) _ v (le_refl _) h
    refine ⟨?_, ?_⟩
    · intro j cell hj
      simp only [List.getElem?_cons_succ] at hj
      exact h2 j.val cell j hj (by omega)
    · intro j hj
      simp only [List.length_cons] at hj
      exact h1 j (Or.inr (by omega))

/-- A line is read to its end exactly when it is accepted. -/
theorem parseRow_ok_iff (P : Platform R) (lnum : Nat) (line : List Char) :
    (∃ v, parseRow P lnum line = .ok v) ↔ rowAccepted P line = true := by
  constructor
  · rintro ⟨v, hv⟩
    by_contra hacc
    have hacc2 : ¬ ((getlines ',' line).length ≤ 7 ∧
        ∀ c ∈ (getlines ',' line).tail, (P.stod c).toBool = true) := by
      intro hh
      apply hacc
      unfold rowAccepted
      simp only [Bool.and_eq_true, decide_eq_true_eq, List.all_eq_true]
      exact hh
    rw [not_and_or] at hacc2
    rcases hacc2 with hlen | hall
    · obtain ⟨e, he⟩ := parseRow_error_of_long P lnum line (by omega)
      rw [he] at hv; cases hv
    · push_neg at hall
      obtain ⟨c, hc, hcb⟩ := hall
      obtain ⟨k, hk⟩ := List.getElem?_of_mem hc
      have hk2 : (getlines ',' line)[k + 1]? = some c := by
        cases hg : getlines ',' line with
        | nil => rw [hg] at hk; simp at hk
        | cons c0 rest => rw [hg] at hk; simpa using hk
      cases hs : P.stod c with
      | ok d => rw [hs] at hcb; exact hcb rfl
      | error e =>
        obtain ⟨e1, he1⟩ := parseRow_error_of_rejected P lnum line k c e hk2 hs
        rw [he1] at hv; cases hv
  · exact parseRow_ok_of_accepted P lnum line

end RowLemmas

section FileLemmas

variable {R : Type} [LinearOrderedField R]

theorem rowPose_of_parseRow (P : Platform R) (lnum : Nat) (line : List Char) (v : Fin 6 → R)
    (h : parseRow P lnum line = .ok v) : rowPose P lnum line = .ok (toolPose P.sqrt v) := by
  unfold rowPose; rw [h]

theorem parseRow_of_rowPose (P : Platform R) (lnum : Nat) (line : List Char)
    (pose : Affine3d R) (h : rowPose P lnum line = .ok pose) :
    ∃ v, parseRow P lnum line = .ok v ∧ pose = toolPose P.sqrt v := by
  unfold rowPose at h
  cases hp : parseRow P lnum line with
  | error e => rw [hp] at h; cases h
  | ok v =>
    rw [hp] at h
    simp only [Except.ok.injEq] at h
    exact ⟨v, rfl, h.symm⟩

/-- An accepted line gets a frame. -/
theorem rowPose_ok_of_accepted (P : Platform R) (lnum : Nat) (line : List Char)
    (h : rowAccepted P line = true) : ∃ pose, rowPose P lnum line = .ok pose := by
  obtain ⟨v, hv⟩ := parseRow_ok_of_accepted P lnum line h
  exact ⟨_, rowPose_of_parseRow P lnum line v hv⟩

/-- Past the header, the outer loop appends one frame per line, in order. -/
theorem readRows_ok_spec (P : Platform R) :
    ∀ (lines : List (List Char)) (lnum : Nat) (path out : List (Affine3d R)), 2 ≤ lnum →
      readRows P lines lnum path = .ok out →
      ∃ res, out = path ++ res ∧ res.length = lines.length ∧
        ∀ (k : Nat) (line : List Char), lines[k]? = some line →
          ∃ pose, res[k]? = some pose ∧ rowPose P (lnum + 1 + k) line = .ok pose := by
  intro lines
  induction lines with
  | nil =>
    intro lnum path out _ h
    simp only [readRows, Except.ok.injEq] at h
    exact ⟨[], by simp [h], rfl, fun k line hk => by simp at hk⟩
  | cons l rest ih =>
    intro lnum path out hl h
    unfold readRows at h
    rw [if_neg (by omega)] at h
    cases hp : rowPose P (lnum + 1) l with
    | error e => rw [hp] at h; cases h
    | ok pose =>
      rw [hp] at h
      obtain ⟨res, h1, h2, h3⟩ := ih (lnum + 1) _ out (by omega) h
      refine ⟨pose :: res, by simp [h1], by simp [h2], ?_⟩
      intro k line hk
      cases k with
      | zero =>
        simp only [List.getElem?_cons_zero, Option.some.injEq] at hk
        subst hk
        exact ⟨pose, by simp, hp⟩
      | succ k =>
        simp only [List.getElem?_cons_succ] at hk
        obtain ⟨p, hp1, hp2⟩ := h3 k line hk
        refine ⟨p, by simpa using hp1, ?_⟩
        have : lnum + 1 + (k + 1) = lnum + 1 + 1 + k := by omega
        rw [this]; exact hp2

/-- Past the header, the outer loop returns when every line gets a frame. -/
theorem readRows_ok_of_all (P : Platform R) :
    ∀ (lines : List (List Char)) (lnum : Nat) (path : List (Affine3d R)), 2 ≤ lnum →
      (∀ (k : Nat) (line : List Char), lines[k]? = some line →
          ∃ pose, rowPose P (lnum + 1 + k) line = .ok pose) →
      ∃ out, readRows P lines lnum path = .ok out := by
  intro lines
  induction lines with
  | nil => intro lnum path _ _; exact ⟨path, rfl⟩
  | cons l rest ih =>
    intro lnum path hl hall
    obtain ⟨pose, hp⟩ := hall 0 l (by simp)
    unfold readRows
    rw [if_neg (by omega)]
    have hp2 : rowPose P (lnum + 1) l = .ok pose := hp
    rw [hp2]
    refine ih (lnum + 1) _ (by omega) ?_
    intro k line hk
    have := hall (k + 1) line (by simpa using hk)
    have e : lnum + 1 + (k + 1) = lnum + 1 + 1 + k := by omega
    rw [e] at this; exact this

/-- Past the header, a line whose body throws makes the outer loop fail. -/
theorem readRows_error_of_row (P : Platform R) :
    ∀ (lines : List (List Char)) (lnum : Nat) (path : List (Affine3d R)) (k : Nat)
      (line : List Char) (e : Exn), 2 ≤ lnum → lines[k]? = some line →
      rowPose P (lnum + 1 + k) line = .error e →
      ∃ e1, readRows P lines lnum path = .error e1 := by
  intro lines
  induction lines with
  | nil => intro lnum path k line e _ hk; simp at hk
  | cons l rest ih =>
    intro lnum path k line e hl hk he
    unfold readRows
    rw [if_neg (by omega)]
    cases hp : rowPose P (lnum + 1) l with
    | error e1 => exact ⟨e1, rfl⟩
    | ok pose =>
      cases k with
      | zero =>
        simp only [List.getElem?_cons_zero, Option.some.injEq] at hk
        subst hk
        have he2 : rowPose P (lnum + 1) l = .error e := he
        rw [hp] at he2; cases he2
      | succ k =>
        simp only [List.getElem?_cons_succ] at hk
        refine ih (lnum + 1) _ k line e (by omega) hk ?_
        have e2 : lnum + 1 + (k + 1) = lnum + 1 + 1 + k := by omega
        rw [e2] at he; exact he

/-- The first two lines are read and dropped; the loop body runs from line 3 on. -/
theorem makePuzzleToolPoses_eq (P : Platform R) (file : String) :
    makePuzzleToolPoses P file = readRows P ((fileLines file).drop 2) 2 [] := by
  unfold makePuzzleToolPoses
  cases fileLines file with
  | nil => simp [readRows]
  | cons a t =>
    cases t with
    | nil => simp [readRows]
    | cons b t => simp [readRows]

end FileLemmas

/-! ## The problem builder -/

section BuilderLemmas

variable {R : Type} [LinearOrderedField R]

/-- The loop at lines 144-158, started at step `pre.length` with as many rounds as poses are
left, pushes one pose term per pose, in order, and never reads past the end. -/
theorem pushPoseCnts_spec (xyz : Vector3d R) (wxyz : Vector4d R) :
    ∀ (suf pre : List (Affine3d R)) (acc : List (TermInfo R)),
      ∃ res, pushPoseCnts (pre ++ suf) xyz wxyz (List.range' pre.length suf.length) acc =
          .ok (acc ++ res) ∧ res.length = suf.length ∧
        ∀ (k : Nat) (tcp : Affine3d R), suf[k]? = some tcp →
          res[k]? = some (TermInfo.Pose (poseCnt xyz wxyz (pre.length + k) tcp)) := by
  intro suf
  induction suf with
  | nil =>
    intro pre acc
    exact ⟨[], by simp [pushPoseCnts], rfl, fun k tcp hk => by simp at hk⟩
  | cons a suf ih =>
    intro pre acc
    obtain ⟨res, h1, h2, h3⟩ := ih (pre ++ [a])
      (acc ++ [TermInfo.Pose (poseCnt xyz wxyz pre.length a)])
    refine ⟨TermInfo.Pose (poseCnt xyz wxyz pre.length a) :: res, ?_, by simp [h2], ?_⟩
    · have hget : (pre ++ a :: suf)[pre.length]? = some a := by
        rw [List.getElem?_append_right (le_refl _)]; simp
      simp only [List.length_cons, List.range'_succ, pushPoseCnts, hget]
      simp only [List.append_assoc, List.singleton_append, List.length_append,
        List.length_singleton] at h1
      rw [h1]
    · intro k tcp hk
      cases k with
      | zero =>
        simp only [List.getElem?_cons_zero, Option.some.injEq] at hk
        subst hk
        simp
      | succ k =>
        simp only [List.getElem?_cons_succ] at hk
        have := h3 k tcp hk
        simp only [List.length_append, List.length_singleton] at this
        simp only [List.getElem?_cons_succ]
        rw [this]
        have e : pre.length + 1 + k = pre.length + (k + 1) := by omega
        rw [e]

/-- When the environment resolves the manipulator, lines 87-160 return a problem
description; its fields are spelled out, with one pose term per tool pose. -/
theorem cppMethodFrom_ok (P : Platform R) (env : Env R) (tool_poses : List (Affine3d R))
    (kin : BasicKin) (hkin : env.getManipulator "manipulator" = some kin) :
    ∃ cnt_infos : List (TermInfo R),
      cppMethodFrom P env tool_poses = .ok
        { basic_info :=
            { n_steps := (tool_poses.length : Int), manip := "manipulator",
              start_fixed := false }
          opt_info :=
            { max_iter := 200, min_approx_improve := 1 / 1000, min_trust_box_size := 1 / 1000 }
          kin := kin
          init_info :=
            { type := InitType.GIVEN_TRAJ
              data := List.replicate tool_poses.length (env.getCurrentJointValues kin.getName) }
          cost_infos :=
            [TermInfo.JointVel
                { coeffs := List.replicate 7 1, name := "joint_vel",
                  term_type := TermType.TT_COST },
              TermInfo.JointAcc
                { coeffs := List.replicate 7 2, name := "joint_acc",
                  term_type := TermType.TT_COST },
              TermInfo.JointJerk
                { coeffs := List.replicate 7 5, name := "joint_jerk",
                  term_type := TermType.TT_COST },
              TermInfo.Collision
                { name := "collision"
                  term_type := TermType.TT_COST
                  continuous := false
                  first_step := 0
                  last_step := (tool_poses.length : Int) - 1
                  gap := 1
                  info := createSafetyMarginDataVector (tool_poses.length : Int) (25 / 1000) 20 }]
          cnt_infos := cnt_infos } ∧
      cnt_infos.length = tool_poses.length ∧
      ∀ (k : Nat) (tcp : Affine3d R), tool_poses[k]? = some tcp →
        cnt_infos[k]? = some (TermInfo.Pose (poseCnt (stationary_xyz env)
          (stationary_wxyz P env) k tcp)) := by
  obtain ⟨res, h1, h2, h3⟩ := pushPoseCnts_spec (stationary_xyz env) (stationary_wxyz P env)
    tool_poses [] []
  simp only [List.nil_append, List.length_nil, zero_add] at h1 h3
  rw [← List.range_eq_range'] at h1
  refine ⟨res, ?_, h2, h3⟩
  unfold cppMethodFrom
  simp only [hkin, Int.toNat_ofNat, h1]

end BuilderLemmas

/-! ## Rows with a given number of cells -/

section ConcreteRows

variable {R : Type}

/-- A file of two header lines and one more line: the result is the frame of line 3. -/
theorem makePuzzleToolPoses_one_row [LinearOrderedField R] (P : Platform R) (file : String)
    (hd1 hd2 row : List Char) (hf : fileLines file = [hd1, hd2, row]) :
    makePuzzleToolPoses P file =
      match rowPose P 3 row with
      | .error e => .error e
      | .ok pose => .ok [pose] := by
  unfold makePuzzleToolPoses
  rw [hf]
  simp only [readRows]
  cases rowPose P 3 row <;> simp

/-- A line of seven cells whose last six are converted by `std::stod` fills `xyzijk` with
the six values, in order. -/
theorem parseRow_seven (P : Platform R) (lnum : Nat) (line c0 c1 c2 c3 c4 c5 c6 : List Char)
    (d1 d2 d3 d4 d5 d6 : R) (hg : getlines ',' line = [c0, c1, c2, c3, c4, c5, c6])
    (h1 : P.stod c1 = .ok d1) (h2 : P.stod c2 = .ok d2) (h3 : P.stod c3 = .ok d3)
    (h4 : P.stod c4 = .ok d4) (h5 : P.stod c5 = .ok d5) (h6 : P.stod c6 = .ok d6) :
    ∃ v, parseRow P lnum line = .ok v ∧ head3 v = ⟨d1, d2, d3⟩ ∧ tail3 v = ⟨d4, d5, d6⟩ := by
  have hacc : rowAccepted P line = true := by
    unfold rowAccepted
    rw [hg]
    simp [h1, h2, h3, h4, h5, h6, Except.toBool]
  obtain ⟨v, hv⟩ := parseRow_ok_of_accepted P lnum line hacc
  obtain ⟨s1, -⟩ := parseRow_ok_spec P lnum line v hv
  rw [hg] at s1
  have e1 := s1 0 c1 rfl
  have e2 := s1 1 c2 rfl
  have e3 := s1 2 c3 rfl
  have e4 := s1 3 c4 rfl
  have e5 := s1 4 c5 rfl
  have e6 := s1 5 c6 rfl
  rw [h1] at e1; rw [h2] at e2; rw [h3] at e3; rw [h4] at e4; rw [h5] at e5; rw [h6] at e6
  simp only [Except.ok.injEq] at e1 e2 e3 e4 e5 e6
  exact ⟨v, hv, by simp [head3, e1, e2, e3], by simp [tail3, e4, e5, e6]⟩

/-- A line of six cells whose last five are converted by `std::stod` fills the first five
coefficients of `xyzijk` with these values and leaves the sixth as it was. -/
theorem parseRow_six (P : Platform R) (lnum : Nat) (line c0 c1 c2 c3 c4 c5 : List Char)
    (d1 d2 d3 d4 d5 : R) (hg : getlines ',' line = [c0, c1, c2, c3, c4, c5])
    (h1 : P.stod c1 = .ok d1) (h2 : P.stod c2 = .ok d2) (h3 : P.stod c3 = .ok d3)
    (h4 : P.stod c4 = .ok d4) (h5 : P.stod c5 = .ok d5) :
    ∃ v, parseRow P lnum line = .ok v ∧ head3 v = ⟨d1, d2, d3⟩ ∧
      tail3 v = ⟨d4, d5, P.uninit lnum 5⟩ := by
  have hacc : rowAccepted P line = true := by
    unfold rowAccepted
    rw [hg]
    simp [h1, h2, h3, h4, h5, Except.toBool]
  obtain ⟨v, hv⟩ := parseRow_ok_of_accepted P lnum line hacc
  obtain ⟨s1, s2⟩ := parseRow_ok_spec P lnum line v hv
  rw [hg] at s1 s2
  have e1 := s1 0 c1 rfl
  have e2 := s1 1 c2 rfl
  have e3 := s1 2 c3 rfl
  have e4 := s1 3 c4 rfl
  have e5 := s1 4 c5 rfl
  have e6 := s2 5 (by simp only [List.length_cons, List.length_nil]; exact le_refl _)
  rw [h1] at e1; rw [h2] at e2; rw [h3] at e3; rw [h4] at e4; rw [h5] at e5
  simp only [Except.ok.injEq] at e1 e2 e3 e4 e5
  exact ⟨v, hv, by simp [head3, e1, e2, e3], by simp [tail3, e4, e5, e6]⟩

variable [LinearOrderedField R]

/-- The decimal instance converts a cell exactly when a decimal literal is read from it. -/
theorem stodDecimal_of_readDecimal (cell : List Char) (neg : Bool) (m nf : Nat) (e : Int)
    (h : readDecimal cell = some (neg, m, nf, e)) :
    (stodDecimal cell : Except Exn R) =
      .ok ((if neg then -1 else 1) * (m : R) / 10 ^ nf * 10 ^ e) := by
  unfold stodDecimal; rw [h]

theorem stodDecimal_digit_zero : (stodDecimal ['0'] : Except Exn R) = .ok 0 := by
  rw [stodDecimal_of_readDecimal ['0'] false 0 0 0 (by decide)]; simp

theorem stodDecimal_digit_one : (stodDecimal ['1'] : Except Exn R) = .ok 1 := by
  rw [stodDecimal_of_readDecimal ['1'] false 1 0 0 (by decide)]; simp

theorem stodDecimal_digit_two : (stodDecimal ['2'] : Except Exn R) = .ok 2 := by
  rw [stodDecimal_of_readDecimal ['2'] false 2 0 0 (by decide)]; simp

theorem stodDecimal_digit_three : (stodDecimal ['3'] : Except Exn R) = .ok 3 := by
  rw [stodDecimal_of_readDecimal ['3'] false 3 0 0 (by decide)]; simp

theorem stodDecimal_digit_four : (stodDecimal ['4'] : Except Exn R) = .ok 4 := by
  rw [stodDecimal_of_readDecimal ['4'] false 4 0 0 (by decide)]; simp

theorem stodDecimal_digit_five : (stodDecimal ['5'] : Except Exn R) = .ok 5 := by
  rw [stodDecimal_of_readDecimal ['5'] false 5 0 0 (by decide)]; simp

theorem stodDecimal_thousand : (stodDecimal ['1', '0', '0', '0'] : Except Exn R) = .ok 1000 := by
  rw [stodDecimal_of_readDecimal ['1', '0', '0', '0'] false 1000 0 0 (by decide)]; simp

theorem stodDecimal_two_thousand :
    (stodDecimal ['2', '0', '0', '0'] : Except Exn R) = .ok 2000 := by
  rw [stodDecimal_of_readDecimal ['2', '0', '0', '0'] false 2000 0 0 (by decide)]; simp

theorem stodDecimal_three_thousand :
    (stodDecimal ['3', '0', '0', '0'] : Except Exn R) = .ok 3000 := by
  rw [stodDecimal_of_readDecimal ['3', '0', '0', '0'] false 3000 0 0 (by decide)]; simp

end ConcreteRows

/-! ## Degenerate frames and whole-file results -/

section Degenerate

open Vector3d

variable {R : Type} [LinearOrderedField R]

theorem divScalar_zero_vec (c : R) : (zero : Vector3d R).divScalar c = zero := by
  simp [divScalar, zero]

theorem scale_zero_vec (c : R) : scale c (zero : Vector3d R) = zero := by
  simp [scale, zero]

/-- A zero position leaves the first two axes at zero. -/
theorem toolPose_of_head_zero (sqrt : R → R) (v : Fin 6 → R) (h : head3 v = zero) :
    (toolPose sqrt v).col0 = zero ∧ (toolPose sqrt v).col1 = zero := by
  simp only [toolPose, h, divScalar_zero_vec, scale_zero_vec, normalized_zero,
    cross_zero_right, cross_zero_left, and_self]

/-- A zero normal leaves the three axes at zero. -/
theorem toolPose_of_tail_zero (sqrt : R → R) (v : Fin 6 → R) (h : tail3 v = zero) :
    (toolPose sqrt v).col0 = zero ∧ (toolPose sqrt v).col1 = zero ∧
      (toolPose sqrt v).col2 = zero := by
  simp only [toolPose, h, normalized_zero, cross_zero_right, cross_zero_left, and_self]

/-- The whole file: when every line after the first two is accepted, the function returns
one frame per such line, the frame at index `k` being the frame of line `k + 3`. -/
theorem makePuzzleToolPoses_ok_spec (P : Platform R) (file : String)
    (hall : ∀ row ∈ (fileLines file).drop 2, rowAccepted P row = true) :
    ∃ path, makePuzzleToolPoses P file = .ok path ∧
      path.length = (fileLines file).length - 2 ∧
      ∀ (k : Nat) (line : List Char), (fileLines file)[k + 2]? = some line →
        ∃ pose, path[k]? = some pose ∧ rowPose P (k + 3) line = .ok pose := by
  rw [makePuzzleToolPoses_eq]
  obtain ⟨out, hout⟩ := readRows_ok_of_all P ((fileLines file).drop 2) 2 [] (le_refl _)
    (fun k line hk => rowPose_ok_of_accepted P _ line (hall line (List.getElem?_mem hk)))
  obtain ⟨res, h1, h2, h3⟩ := readRows_ok_spec P _ 2 [] out (le_refl _) hout
  simp only [List.nil_append] at h1
  subst h1
  refine ⟨out, hout, by simpa using h2, ?_⟩
  intro k line hk
  have hk2 : ((fileLines file).drop 2)[k]? = some line := by
    rw [List.getElem?_drop, Nat.add_comm]; exact hk
  obtain ⟨pose, hp1, hp2⟩ := h3 k line hk2
  have e : 2 + 1 + k = k + 3 := by omega
  rw [e] at hp2
  exact ⟨pose, hp1, hp2⟩

/-- The whole file: a line after the first two whose body throws ends the program. -/
theorem makePuzzleToolPoses_error_of_row (P : Platform R) (file : String) (k : Nat)
    (line : List Char) (e : Exn) (hline : (fileLines file)[k + 2]? = some line)
    (he : rowPose P (k + 3) line = .error e) :
    ∃ e1, makePuzzleToolPoses P file = .error e1 := by
  rw [makePuzzleToolPoses_eq]
  have hk2 : ((fileLines file).drop 2)[k]? = some line := by
    rw [List.getElem?_drop, Nat.add_comm]; exact hline
  refine readRows_error_of_row P _ 2 [] k line e (le_refl _) hk2 ?_
  have e2 : 2 + 1 + k = k + 3 := by omega
  rw [e2]; exact he

end Degenerate

/-! ## Right-handed frames -/

section RightHanded

open Vector3d

/-- The double cross product `(v × w) × v`, written out. -/
theorem cross_cross_left {R : Type} [LinearOrderedField R] (v w : Vector3d R) :
    cross (cross v w) v =
      ⟨w.x * v.squaredNorm - v.x * dot v w, w.y * v.squaredNorm - v.y * dot v w,
        w.z * v.squaredNorm - v.z * dot v w⟩ := by
  simp only [cross, dot, squaredNorm, Vector3d.mk.injEq]
  refine ⟨?_, ?_, ?_⟩ <;> ring

/-- Over the reals, when the position of the row is not parallel to its normal: the third
axis built by lines 58-72 is the normal divided by its length, the second axis has squared
length one and is orthogonal to the third, and the first axis is the cross product of the
second and the third. -/
theorem toolPose_frame_real (xyzijk : Fin 6 → ℝ)
    (h : (head3 xyzijk).cross (tail3 xyzijk) ≠ zero) :
    (toolPose Real.sqrt xyzijk).col2 =
        (tail3 xyzijk).divScalar (Vector3d.norm Real.sqrt (tail3 xyzijk)) ∧
      (toolPose Real.sqrt xyzijk).col0 =
        cross (toolPose Real.sqrt xyzijk).col1 (toolPose Real.sqrt xyzijk).col2 ∧
      (toolPose Real.sqrt xyzijk).col1.squaredNorm = 1 ∧
      (toolPose Real.sqrt xyzijk).col2.squaredNorm = 1 ∧
      dot (toolPose Real.sqrt xyzijk).col1 (toolPose Real.sqrt xyzijk).col2 = 0 := by
  have hn0 : tail3 xyzijk ≠ zero := fun h0 => h (by rw [h0]; exact cross_zero_right _)
  have hp0 : head3 xyzijk ≠ zero := fun h0 => h (by rw [h0]; exact cross_zero_left _)
  have hnpos := squaredNorm_pos_of_ne_zero _ hn0
  obtain ⟨k1, hk1, e1, u1⟩ := normalized_real (tail3 xyzijk) hnpos
  have hpos : scale (-1) ((head3 xyzijk).divScalar 1000) = scale (-1 * 1000⁻¹) (head3 xyzijk) := by
    rw [divScalar_eq_scale, scale_scale]
  have hposne : scale (-1 * 1000⁻¹) (head3 xyzijk) ≠ zero :=
    scale_ne_zero _ _ (by norm_num) hp0
  obtain ⟨k2, hk2, e2, -⟩ := normalized_real _ (squaredNorm_pos_of_ne_zero _ hposne)
  have hc : cross (normalized Real.sqrt (tail3 xyzijk))
      (normalized Real.sqrt (scale (-1) ((head3 xyzijk).divScalar 1000))) =
      scale (k1 * (k2 * (-1 * 1000⁻¹)) * -1) (cross (head3 xyzijk) (tail3 xyzijk)) := by
    rw [hpos, e1, e2, scale_scale, cross_scale_scale, cross_swap (tail3 xyzijk), scale_scale]
  have hcne : cross (normalized Real.sqrt (tail3 xyzijk))
      (normalized Real.sqrt (scale (-1) ((head3 xyzijk).divScalar 1000))) ≠ zero := by
    rw [hc]
    refine scale_ne_zero _ _ ?_ h
    have h1 : k1 ≠ 0 := ne_of_gt hk1
    have h2 : k2 ≠ 0 := ne_of_gt hk2
    have h3 : (-1 * 1000⁻¹ : ℝ) ≠ 0 := by norm_num
    exact mul_ne_zero (mul_ne_zero h1 (mul_ne_zero h2 h3)) (by norm_num)
  obtain ⟨k3, -, e3, u3⟩ := normalized_real _ (squaredNorm_pos_of_ne_zero _ hcne)
  have hyn : dot (normalized Real.sqrt (cross (normalized Real.sqrt (tail3 xyzijk))
      (normalized Real.sqrt (scale (-1) ((head3 xyzijk).divScalar 1000)))))
      (normalized Real.sqrt (tail3 xyzijk)) = 0 := by
    rw [e3, dot_scale_left, dot_cross_left, mul_zero]
  have hsq : (cross (normalized Real.sqrt (cross (normalized Real.sqrt (tail3 xyzijk))
      (normalized Real.sqrt (scale (-1) ((head3 xyzijk).divScalar 1000)))))
      (normalized Real.sqrt (tail3 xyzijk))).squaredNorm = 1 := by
    rw [squaredNorm_cross, u3, u1, hyn]; norm_num
  have hx : normalized Real.sqrt (cross (normalized Real.sqrt (cross
      (normalized Real.sqrt (tail3 xyzijk))
      (normalized Real.sqrt (scale (-1) ((head3 xyzijk).divScalar 1000)))))
      (normalized Real.sqrt (tail3 xyzijk))) =
      cross (normalized Real.sqrt (cross (normalized Real.sqrt (tail3 xyzijk))
      (normalized Real.sqrt (scale (-1) ((head3 xyzijk).divScalar 1000)))))
      (normalized Real.sqrt (tail3 xyzijk)) := by
    rw [normalized]
    simp only [hsq, zero_lt_one, if_true, Real.sqrt_one, divScalar_one]
  simp only [toolPose]
  refine ⟨?_, hx, u3, u1, hyn⟩
  simp only [normalized, if_pos hnpos, Vector3d.norm]

/-- Over the reals, when the position of the row is not parallel to its normal, the frame
built by lines 58-72 is right-handed: the cross product of the first and second axes is the
third axis, and the determinant of the three axes is one. -/
theorem toolPose_right_handed_real (xyzijk : Fin 6 → ℝ)
    (h : (head3 xyzijk).cross (tail3 xyzijk) ≠ zero) :
    cross (toolPose Real.sqrt xyzijk).col0 (toolPose Real.sqrt xyzijk).col1 =
        (toolPose Real.sqrt xyzijk).col2 ∧
      (toolPose Real.sqrt xyzijk).linearDet = 1 := by
  obtain ⟨-, h0, h1, h2, h12⟩ := toolPose_frame_real xyzijk h
  have hc : cross (toolPose Real.sqrt xyzijk).col0 (toolPose Real.sqrt xyzijk).col1 =
      (toolPose Real.sqrt xyzijk).col2 := by
    rw [h0, cross_cross_left, h1, h12]
    simp
  refine ⟨hc, ?_⟩
  unfold Affine3d.linearDet
  rw [hc]
  exact h2

end RightHanded

/-! ## The claims -/

section Claims

open Vector3d

/-- C1, counterexample.  The row `7,0,0,0,0,0,1` is a valid scan row (numeric cells, normal
`(0,0,1)`) whose position is `(0,0,0)`; the frame that `makePuzzleToolPoses` builds for it is
not orthonormal, its first and second axes being the zero vector. -/
theorem C1_counterexample :
    ∃ pose : Affine3d ℝ,
      makePuzzleToolPoses (decimalPlatform Real.sqrt (fun _ _ => 0)) "h\nh\n7,0,0,0,0,0,1" =
        .ok [pose] ∧ ¬ Orthonormal Real.sqrt pose := by
  obtain ⟨v, hv, hh, -⟩ := parseRow_seven (decimalPlatform Real.sqrt (fun _ _ => 0)) 3
    "7,0,0,0,0,0,1".toList ['7'] ['0'] ['0'] ['0'] ['0'] ['0'] ['1'] 0 0 0 0 0 1 (by decide)
    stodDecimal_digit_zero stodDecimal_digit_zero stodDecimal_digit_zero
    stodDecimal_digit_zero stodDecimal_digit_zero stodDecimal_digit_one
  refine ⟨toolPose Real.sqrt v, ?_, ?_⟩
  · rw [makePuzzleToolPoses_one_row _ _ ['h'] ['h'] "7,0,0,0,0,0,1".toList (by decide),
      rowPose_of_parseRow _ _ _ v hv]
    rfl
  · intro ho
    have h0 := (toolPose_of_head_zero Real.sqrt v hh).1
    have hn := ho.2.2.2.1
    rw [h0] at hn
    simp [Vector3d.norm, squaredNorm, zero] at hn

/-- C1, amended.  For every row that is read to its end and whose position is not parallel to
its normal (the cross product of the stored position and normal is not zero, which excludes
a zero position and a zero normal), the frame that `makePuzzleToolPoses` builds for the row
has three pairwise orthogonal axes, each of length one, over the reals. -/
theorem C1_axes_orthonormal (P : Platform ℝ) (hsqrt : P.sqrt = Real.sqrt) (lnum : Nat)
    (line : List Char) (xyzijk : Fin 6 → ℝ) (hrow : parseRow P lnum line = .ok xyzijk)
    (hpn : (head3 xyzijk).cross (tail3 xyzijk) ≠ zero) :
    ∃ pose, rowPose P lnum line = .ok pose ∧ Orthonormal Real.sqrt pose := by
  refine ⟨toolPose P.sqrt xyzijk, rowPose_of_parseRow P lnum line xyzijk hrow, ?_⟩
  rw [hsqrt]
  exact toolPose_orthonormal_real xyzijk hpn

/-- C1, witness: the row `7,1,0,0,0,0,1`, with position `(1,0,0)` and normal `(0,0,1)`. -/
theorem C1_witness :
    ∃ pose : Affine3d ℝ,
      rowPose (decimalPlatform Real.sqrt (fun _ _ => 0)) 3 "7,1,0,0,0,0,1".toList = .ok pose ∧
        Orthonormal Real.sqrt pose := by
  obtain ⟨v, hv, hh, ht⟩ := parseRow_seven (decimalPlatform Real.sqrt (fun _ _ => 0)) 3
    "7,1,0,0,0,0,1".toList ['7'] ['1'] ['0'] ['0'] ['0'] ['0'] ['1'] 1 0 0 0 0 1 (by decide)
    stodDecimal_digit_one stodDecimal_digit_zero stodDecimal_digit_zero
    stodDecimal_digit_zero stodDecimal_digit_zero stodDecimal_digit_one
  refine C1_axes_orthonormal (decimalPlatform Real.sqrt (fun _ _ => 0)) rfl 3
    "7,1,0,0,0,0,1".toList v hv ?_
  rw [hh, ht]
  simp [cross, zero]

/-- C2, counterexample.  For the file of two header rows and the data row `0,0,0,0,0,1`,
whatever the storage of `xyzijk` held, the frame returned does not have `(0,0,1)` as third
axis: the first cell is skipped, so the normal is read from the cells `0`, `1` and from the
sixth coefficient, which no cell fills. -/
theorem C2_counterexample :
    ¬ ∃ (uninit : Nat → Fin 6 → ℝ) (frame : Affine3d ℝ),
      makePuzzleToolPoses (decimalPlatform Real.sqrt uninit) "h\nh\n0,0,0,0,0,1" =
        .ok [frame] ∧ frame.col2 = ⟨0, 0, 1⟩ := by
  rintro ⟨uninit, frame, hm, hz⟩
  obtain ⟨v, hv, -, ht⟩ := parseRow_six (decimalPlatform Real.sqrt uninit) 3
    "0,0,0,0,0,1".toList ['0'] ['0'] ['0'] ['0'] ['0'] ['1'] 0 0 0 0 1 (by decide)
    stodDecimal_digit_zero stodDecimal_digit_zero stodDecimal_digit_zero
    stodDecimal_digit_zero stodDecimal_digit_one
  rw [makePuzzleToolPoses_one_row _ _ ['h'] ['h'] "0,0,0,0,0,1".toList (by decide),
    rowPose_of_parseRow _ _ _ v hv] at hm
  simp only [Except.ok.injEq, List.cons.injEq, and_true] at hm
  subst hm
  have hsq : (0 : ℝ) < 0 * 0 + 1 * 1 + uninit 3 5 * uninit 3 5 := by
    have := mul_self_nonneg (uninit 3 5)
    linarith
  have hy := congrArg Vector3d.y hz
  simp only [toolPose, ht, normalized, squaredNorm, decimalPlatform, if_pos hsq,
    divScalar] at hy
  have hs : 0 < Real.sqrt (0 * 0 + 1 * 1 + uninit 3 5 * uninit 3 5) := Real.sqrt_pos.2 hsq
  have := div_pos (zero_lt_one (α := ℝ)) hs
  linarith

/-- C2, amended.  For a file of two header rows followed by the single data row
`0,0,0,0,0,0,1` (a first cell, which is skipped, then the six values), on a platform whose
`std::stod` converts `0` and `1` and whose square root is the real one, and in an
environment that resolves the manipulator: `makePuzzleToolPoses` returns a path of length 1
whose frame has position `(0,0,0)` and third axis `(0,0,1)`, and `cppMethod` returns a
problem description with exactly one constraint, a pose term, and an initial trajectory of
exactly one row. -/
theorem C2_single_row_scenario (P : Platform ℝ) (hsqrt : P.sqrt = Real.sqrt)
    (h0 : P.stod ['0'] = .ok 0) (h1 : P.stod ['1'] = .ok 1) (env : Env ℝ) (kin : BasicKin)
    (hkin : env.getManipulator "manipulator" = some kin) (file : String)
    (hd1 hd2 : List Char) (hf : fileLines file = [hd1, hd2, "0,0,0,0,0,0,1".toList]) :
    ∃ (frame : Affine3d ℝ) (pci : ProblemConstructionInfo ℝ) (info : PoseCostInfo ℝ),
      makePuzzleToolPoses P file = .ok [frame] ∧ frame.translation = ⟨0, 0, 0⟩ ∧
        frame.col2 = ⟨0, 0, 1⟩ ∧ cppMethod P env file = .ok pci ∧
        pci.cnt_infos = [TermInfo.Pose info] ∧ pci.init_info.data.length = 1 := by
  obtain ⟨v, hv, hh, ht⟩ := parseRow_seven P 3 "0,0,0,0,0,0,1".toList
    ['0'] ['0'] ['0'] ['0'] ['0'] ['0'] ['1'] 0 0 0 0 0 1 (by decide) h0 h0 h0 h0 h0 h1
  have hm : makePuzzleToolPoses P file = .ok [toolPose P.sqrt v] := by
    rw [makePuzzleToolPoses_one_row P file hd1 hd2 _ hf, rowPose_of_parseRow _ _ _ v hv]
  obtain ⟨cnt, hc, hlen, hget⟩ := cppMethodFrom_ok P env [toolPose P.sqrt v] kin hkin
  have hcnt := hget 0 (toolPose P.sqrt v) (by simp)
  have hcnt2 : cnt = [TermInfo.Pose (poseCnt (stationary_xyz env) (stationary_wxyz P env) 0
      (toolPose P.sqrt v))] := by
    match cnt, hlen, hcnt with
    | [t], _, hcnt =>
      simp only [List.getElem?_cons_zero, Option.some.injEq] at hcnt
      rw [hcnt]
  rw [hcnt2] at hc
  have hcpp := hc
  rw [show cppMethodFrom P env [toolPose P.sqrt v] = cppMethod P env file by
    unfold cppMethod; rw [hm]] at hcpp
  have ha : (toolPose P.sqrt v).translation = ⟨0, 0, 0⟩ := by
    simp [toolPose, Affine3d.translation, hh, divScalar]
  have hb : (toolPose P.sqrt v).col2 = ⟨0, 0, 1⟩ := by
    simp [toolPose, ht, normalized, squaredNorm, divScalar, hsqrt]
  exact ⟨toolPose P.sqrt v, _, _, hm, ha, hb, hcpp, rfl, by simp⟩

/-- C2, witness: the decimal platform, an environment with a manipulator, the file with the
header rows `h` and `h`. -/
theorem C2_witness :
    ∃ (frame : Affine3d ℝ) (pci : ProblemConstructionInfo ℝ) (info : PoseCostInfo ℝ),
      makePuzzleToolPoses (decimalPlatform Real.sqrt (fun _ _ => 0)) "h\nh\n0,0,0,0,0,0,1" =
          .ok [frame] ∧ frame.translation = ⟨0, 0, 0⟩ ∧ frame.col2 = ⟨0, 0, 1⟩ ∧
        cppMethod (decimalPlatform Real.sqrt (fun _ _ => 0))
            { getManipulator := fun _ => some ⟨"manipulator"⟩
              getCurrentJointValues := fun _ => [0, 0, 0, 0, 0, 0, 0]
              getLinkTransform := fun _ => ⟨⟨1, 0, 0⟩, ⟨0, 1, 0⟩, ⟨0, 0, 1⟩, ⟨0, 0, 0⟩⟩ }
            "h\nh\n0,0,0,0,0,0,1" = .ok pci ∧
        pci.cnt_infos = [TermInfo.Pose info] ∧ pci.init_info.data.length = 1 :=
  C2_single_row_scenario (decimalPlatform Real.sqrt (fun _ _ => 0)) rfl
    stodDecimal_digit_zero stodDecimal_digit_one _ ⟨"manipulator"⟩ rfl "h\nh\n0,0,0,0,0,0,1"
    ['h'] ['h'] (by decide)

/-- C3, counterexample.  The file whose only data row is `1,2,3,4,5` does not make
`makePuzzleToolPoses` fail, whatever the storage of `xyzijk` held: a path of one frame is
returned. -/
theorem C3_counterexample :
    ¬ ∃ (uninit : Nat → Fin 6 → ℝ) (e : Exn),
      makePuzzleToolPoses (decimalPlatform Real.sqrt uninit) "h\nh\n1,2,3,4,5" = .error e := by
  rintro ⟨uninit, e, he⟩
  have hacc : rowAccepted (decimalPlatform Real.sqrt uninit) "1,2,3,4,5".toList = true := by
    unfold rowAccepted
    rw [show getlines ',' "1,2,3,4,5".toList = [['1'], ['2'], ['3'], ['4'], ['5']] by decide]
    simp [decimalPlatform, stodDecimal_digit_two, stodDecimal_digit_three,
      stodDecimal_digit_four, stodDecimal_digit_five, Except.toBool]
  obtain ⟨pose, hp⟩ := rowPose_ok_of_accepted (decimalPlatform Real.sqrt uninit) 3 _ hacc
  rw [makePuzzleToolPoses_one_row _ _ ['h'] ['h'] "1,2,3,4,5".toList (by decide), hp] at he
  cases he

/-- C3, amended.  The number of fields is not checked: a data row with five fields, whose
fields after the first are converted by `std::stod`, does not make `makePuzzleToolPoses`
fail.  When the other data rows are accepted as well, a path is returned with one frame per
line after the first two, and the five-field row at line `k + 3` contributes the frame at
index `k`. -/
theorem C3_five_fields_not_rejected {R : Type} [LinearOrderedField R] (P : Platform R)
    (file : String) (k : Nat) (line : List Char)
    (hline : (fileLines file)[k + 2]? = some line) (hfive : (getlines ',' line).length = 5)
    (hnum : ∀ cell ∈ (getlines ',' line).tail, ∃ d, P.stod cell = .ok d)
    (hothers : ∀ row ∈ (fileLines file).drop 2, row ≠ line → rowAccepted P row = true) :
    ∃ path pose, makePuzzleToolPoses P file = .ok path ∧
      path.length = (fileLines file).length - 2 ∧ path[k]? = some pose ∧
      rowPose P (k + 3) line = .ok pose := by
  have hacc : rowAccepted P line = true := by
    unfold rowAccepted
    simp only [Bool.and_eq_true, decide_eq_true_eq, List.all_eq_true]
    refine ⟨by omega, ?_⟩
    intro cell hcell
    obtain ⟨d, hd⟩ := hnum cell hcell
    rw [hd]; rfl
  have hall : ∀ row ∈ (fileLines file).drop 2, rowAccepted P row = true := by
    intro row hrow
    by_cases hr : row = line
    · rw [hr]; exact hacc
    · exact hothers row hrow hr
  obtain ⟨path, h1, h2, h3⟩ := makePuzzleToolPoses_ok_spec P file hall
  obtain ⟨pose, hp1, hp2⟩ := h3 k line hline
  exact ⟨path, pose, h1, h2, hp1, hp2⟩

/-- C3, witness: the file whose only data row is `1,2,3,4,5`. -/
theorem C3_witness :
    ∃ (path : List (Affine3d ℚ)) (pose : Affine3d ℚ),
      makePuzzleToolPoses (samplePlatform) "h\nh\n1,2,3,4,5" = .ok path ∧
        path.length = (fileLines "h\nh\n1,2,3,4,5").length - 2 ∧ path[0]? = some pose ∧
        rowPose (samplePlatform) 3 "1,2,3,4,5".toList = .ok pose :=
  C3_five_fields_not_rejected (samplePlatform) "h\nh\n1,2,3,4,5" 0
    "1,2,3,4,5".toList (by decide) (by decide)
    (by
      rw [show getlines ',' "1,2,3,4,5".toList = [['1'], ['2'], ['3'], ['4'], ['5']] by decide]
      intro cell hcell
      simp only [List.tail_cons, List.mem_cons, List.mem_singleton, List.not_mem_nil,
        or_false] at hcell
      rcases hcell with h | h | h | h
      · exact ⟨2, by rw [h]; exact stodDecimal_digit_two⟩
      · exact ⟨3, by rw [h]; exact stodDecimal_digit_three⟩
      · exact ⟨4, by rw [h]; exact stodDecimal_digit_four⟩
      · exact ⟨5, by rw [h]; exact stodDecimal_digit_five⟩)
    (by
      rw [show fileLines "h\nh\n1,2,3,4,5" = [['h'], ['h'], "1,2,3,4,5".toList] by decide]
      intro row hrow hne
      simp only [List.drop_succ_cons, List.drop_zero, List.mem_singleton] at hrow
      exact absurd hrow hne)

/-- C4, counterexample.  The file made of two header rows and one empty row has no
non-empty data row, yet on every platform the path returned is not empty: the empty row
contributes a frame, built from the storage of `xyzijk` as it was. -/
theorem C4_counterexample :
    ¬ ∃ P : Platform ℝ, makePuzzleToolPoses P "h\nh\n\n" = .ok [] := by
  rintro ⟨P, hP⟩
  rw [makePuzzleToolPoses_one_row P _ ['h'] ['h'] [] (by decide)] at hP
  have hrow : rowPose P 3 [] = .ok (toolPose P.sqrt (P.uninit 3)) := by
    simp [rowPose, parseRow, getlines, parseCells]
  rw [hrow] at hP
  simp at hP

/-- C4, amended.  For every file whose rows after the first two are all accepted (at most
seven cells, every cell after the first converted by `std::stod`; an empty row is accepted),
`makePuzzleToolPoses` returns a path with exactly one frame per row after the first two, in
file order: the first two rows contribute no frame whatever they contain, and the frame at
index `k` is the one built from the row at line `k + 3`, empty or not. -/
theorem C4_one_frame_per_row {R : Type} [LinearOrderedField R] (P : Platform R)
    (file : String) (hall : ∀ row ∈ (fileLines file).drop 2, rowAccepted P row = true) :
    ∃ path, makePuzzleToolPoses P file = .ok path ∧
      path.length = (fileLines file).length - 2 ∧
      ∀ (k : Nat) (line : List Char), (fileLines file)[k + 2]? = some line →
        ∃ xyzijk, parseRow P (k + 3) line = .ok xyzijk ∧
          path[k]? = some (toolPose P.sqrt xyzijk) := by
  obtain ⟨path, h1, h2, h3⟩ := makePuzzleToolPoses_ok_spec P file hall
  refine ⟨path, h1, h2, ?_⟩
  intro k line hk
  obtain ⟨pose, hp1, hp2⟩ := h3 k line hk
  obtain ⟨v, hv1, hv2⟩ := parseRow_of_rowPose P (k + 3) line pose hp2
  exact ⟨v, hv1, by rw [← hv2]; exact hp1⟩

/-- C4, witness: two header rows (the second one not numeric), a data row, an empty row. -/
theorem C4_witness :
    ∃ path : List (Affine3d ℚ),
      makePuzzleToolPoses (samplePlatform) "x,y\n,,\n7,1,2,3,0,0,1\n\n" =
          .ok path ∧
        path.length = (fileLines "x,y\n,,\n7,1,2,3,0,0,1\n\n").length - 2 ∧
        ∀ (k : Nat) (line : List Char),
          (fileLines "x,y\n,,\n7,1,2,3,0,0,1\n\n")[k + 2]? = some line →
          ∃ xyzijk, parseRow (samplePlatform) (k + 3) line = .ok xyzijk ∧
            path[k]? = some (toolPose samplePlatform.sqrt xyzijk) :=
  C4_one_frame_per_row (samplePlatform) "x,y\n,,\n7,1,2,3,0,0,1\n\n"
    (by
      rw [show fileLines "x,y\n,,\n7,1,2,3,0,0,1\n\n" =
        ["x,y".toList, ",,".toList, "7,1,2,3,0,0,1".toList, []] by decide]
      intro row hrow
      simp only [List.drop_succ_cons, List.drop_zero, List.mem_cons, List.mem_singleton,
        List.not_mem_nil, or_false] at hrow
      rcases hrow with h | h
      · rw [h]
        unfold rowAccepted
        rw [show getlines ',' "7,1,2,3,0,0,1".toList =
          [['7'], ['1'], ['2'], ['3'], ['0'], ['0'], ['1']] by decide]
        simp [samplePlatform, decimalPlatform, stodDecimal_digit_zero, stodDecimal_digit_one,
          stodDecimal_digit_two, stodDecimal_digit_three, Except.toBool]
      · rw [h]
        simp [rowAccepted, getlines])

/-- C5.  For every tool path, in an environment that resolves the manipulator, `cppMethod`
builds a problem description whose step count is the length of the path and whose
constraint list has exactly that many entries, all of them pose terms; the cost list holds
no pose term. -/
theorem C5_step_count_and_pose_terms {R : Type} [LinearOrderedField R] (P : Platform R)
    (env : Env R) (tool_poses : List (Affine3d R)) (kin : BasicKin)
    (hkin : env.getManipulator "manipulator" = some kin) :
    ∃ pci, cppMethodFrom P env tool_poses = .ok pci ∧
      pci.basic_info.n_steps = (tool_poses.length : Int) ∧
      pci.cnt_infos.length = tool_poses.length ∧
      (∀ t ∈ pci.cnt_infos, ∃ info, t = TermInfo.Pose info) ∧
      (∀ t ∈ pci.cost_infos, ∀ info, t ≠ TermInfo.Pose info) := by
  obtain ⟨cnt, hc, hlen, hget⟩ := cppMethodFrom_ok P env tool_poses kin hkin
  refine ⟨_, hc, rfl, hlen, ?_, ?_⟩
  · intro t ht
    have ht1 : t ∈ cnt := ht
    obtain ⟨k, hk⟩ := List.getElem?_of_mem ht1
    have hk1 : k < cnt.length := by
      by_contra hn
      rw [List.getElem?_eq_none (by omega)] at hk
      cases hk
    have hk2 : k < tool_poses.length := by omega
    have := hget k tool_poses[k] (List.getElem?_eq_getElem hk2)
    rw [hk] at this
    simp only [Option.some.injEq] at this
    exact ⟨_, this⟩
  · intro t ht info
    simp only [List.mem_cons, List.mem_singleton, List.not_mem_nil, or_false] at ht
    rcases ht with h | h | h | h <;> rw [h] <;> simp

/-- C5, witness: the sample path of two frames in the sample environment. -/
theorem C5_witness :
    ∃ pci, cppMethodFrom samplePlatform sampleEnv samplePath = .ok pci ∧
      pci.basic_info.n_steps = ((samplePath.length : Nat) : Int) ∧
      pci.cnt_infos.length = samplePath.length ∧
      (∀ t ∈ pci.cnt_infos, ∃ info, t = TermInfo.Pose info) ∧
      (∀ t ∈ pci.cost_infos, ∀ info, t ≠ TermInfo.Pose info) :=
  C5_step_count_and_pose_terms samplePlatform sampleEnv samplePath ⟨"manipulator"⟩ rfl

/-- C6.  For every tool path and every step `i` below its length, in an environment that
resolves the manipulator, the `i`-th constraint built by `cppMethod` is a pose term with
step index `i` and tool-centre-point frame `tool_poses[i]`; its target position and
orientation are those of the link `grinder_frame`, resolved once, hence the same for every
step. -/
theorem C6_pose_term_per_step {R : Type} [LinearOrderedField R] (P : Platform R)
    (env : Env R) (tool_poses : List (Affine3d R)) (kin : BasicKin)
    (hkin : env.getManipulator "manipulator" = some kin) :
    ∃ pci, cppMethodFrom P env tool_poses = .ok pci ∧
      ∀ (i : Nat) (tcp : Affine3d R), tool_poses[i]? = some tcp →
        ∃ info, pci.cnt_infos[i]? = some (TermInfo.Pose info) ∧ info.timestep = (i : Int) ∧
          info.tcp = tcp ∧ info.xyz = stationary_xyz env ∧ info.wxyz = stationary_wxyz P env := by
  obtain ⟨cnt, hc, -, hget⟩ := cppMethodFrom_ok P env tool_poses kin hkin
  refine ⟨_, hc, ?_⟩
  intro i tcp hi
  exact ⟨_, hget i tcp hi, rfl, rfl, rfl, rfl⟩

/-- C6, witness: the sample path of two frames in the sample environment. -/
theorem C6_witness :
    ∃ pci, cppMethodFrom samplePlatform sampleEnv samplePath = .ok pci ∧
      ∀ (i : Nat) (tcp : Affine3d ℚ), samplePath[i]? = some tcp →
        ∃ info, pci.cnt_infos[i]? = some (TermInfo.Pose info) ∧ info.timestep = (i : Int) ∧
          info.tcp = tcp ∧ info.xyz = stationary_xyz sampleEnv ∧
          info.wxyz = stationary_wxyz samplePlatform sampleEnv :=
  C6_pose_term_per_step samplePlatform sampleEnv samplePath ⟨"manipulator"⟩ rfl

/-- C7.  For every tool path of `n` frames, in an environment that resolves the manipulator
and returns the joint vector `q` for it, the initial trajectory built by `cppMethod` is the
matrix of `n` rows and `length q` columns whose every row equals `q`. -/
theorem C7_initial_trajectory_constant {R : Type} [LinearOrderedField R] (P : Platform R)
    (env : Env R) (tool_poses : List (Affine3d R)) (kin : BasicKin)
    (hkin : env.getManipulator "manipulator" = some kin) :
    ∃ pci, cppMethodFrom P env tool_poses = .ok pci ∧
      pci.init_info.type = InitType.GIVEN_TRAJ ∧
      pci.init_info.data.length = tool_poses.length ∧
      ∀ row ∈ pci.init_info.data,
        row = env.getCurrentJointValues kin.getName ∧
          row.length = (env.getCurrentJointValues kin.getName).length := by
  obtain ⟨cnt, hc, -, -⟩ := cppMethodFrom_ok P env tool_poses kin hkin
  refine ⟨_, hc, rfl, by simp, ?_⟩
  intro row hrow
  have := List.eq_of_mem_replicate hrow
  exact ⟨this, by rw [this]⟩

/-- C7, witness: the sample path of two frames and the seven joint values of the sample
environment. -/
theorem C7_witness :
    ∃ pci, cppMethodFrom samplePlatform sampleEnv samplePath = .ok pci ∧
      pci.init_info.type = InitType.GIVEN_TRAJ ∧
      pci.init_info.data.length = samplePath.length ∧
      ∀ row ∈ pci.init_info.data,
        row = sampleEnv.getCurrentJointValues "manipulator" ∧
          row.length = (sampleEnv.getCurrentJointValues "manipulator").length :=
  C7_initial_trajectory_constant samplePlatform sampleEnv samplePath ⟨"manipulator"⟩ rfl

/-- C8, counterexample.  For the data row `1000,2000,3000,0,0,1`, of the form `x,y,z,i,j,k`,
the translation of the frame is not `(1,2,3)`, whatever the storage of `xyzijk` held: the
first cell is skipped and the position is read from the second, third and fourth cells. -/
theorem C8_counterexample :
    ¬ ∃ (uninit : Nat → Fin 6 → ℝ) (frame : Affine3d ℝ),
      makePuzzleToolPoses (decimalPlatform Real.sqrt uninit) "h\nh\n1000,2000,3000,0,0,1" =
        .ok [frame] ∧ frame.translation = ⟨1000 / 1000, 2000 / 1000, 3000 / 1000⟩ := by
  rintro ⟨uninit, frame, hm, hz⟩
  obtain ⟨v, hv, hh, -⟩ := parseRow_six (decimalPlatform Real.sqrt uninit) 3
    "1000,2000,3000,0,0,1".toList ['1', '0', '0', '0'] ['2', '0', '0', '0']
    ['3', '0', '0', '0'] ['0'] ['0'] ['1'] 2000 3000 0 0 1 (by decide)
    stodDecimal_two_thousand stodDecimal_three_thousand stodDecimal_digit_zero
    stodDecimal_digit_zero stodDecimal_digit_one
  rw [makePuzzleToolPoses_one_row _ _ ['h'] ['h'] "1000,2000,3000,0,0,1".toList (by decide),
    rowPose_of_parseRow _ _ _ v hv] at hm
  simp only [Except.ok.injEq, List.cons.injEq, and_true] at hm
  subst hm
  have hx := congrArg Vector3d.x hz
  simp only [toolPose, Affine3d.translation, hh, divScalar] at hx
  norm_num at hx

/-- C8, amended.  For every accepted data row with at least four cells, the translation of
the frame that `makePuzzleToolPoses` builds for it is exactly `(x/1000, y/1000, z/1000)`,
where `x`, `y`, `z` are the values of the second, third and fourth cells of the row (the
first cell is skipped): for a row `s,x,y,z,i,j,k` these are the three cells after `s`. -/
theorem C8_translation_is_scaled_position {R : Type} [LinearOrderedField R] (P : Platform R)
    (lnum : Nat) (line c1 c2 c3 c4 : List Char) (rest : List (List Char))
    (hacc : rowAccepted P line = true)
    (hg : getlines ',' line = c1 :: c2 :: c3 :: c4 :: rest) :
    ∃ pose x y z, rowPose P lnum line = .ok pose ∧ P.stod c2 = .ok x ∧ P.stod c3 = .ok y ∧
      P.stod c4 = .ok z ∧ pose.translation = ⟨x / 1000, y / 1000, z / 1000⟩ := by
  obtain ⟨v, hv⟩ := parseRow_ok_of_accepted P lnum line hacc
  obtain ⟨s1, -⟩ := parseRow_ok_spec P lnum line v hv
  rw [hg] at s1
  exact ⟨toolPose P.sqrt v, v 0, v 1, v 2, rowPose_of_parseRow P lnum line v hv,
    s1 0 c2 rfl, s1 1 c3 rfl, s1 2 c4 (by simp), rfl⟩

/-- C8, witness: the row `7,1000,2000,3000,0,0,1`. -/
theorem C8_witness :
    ∃ (pose : Affine3d ℚ) (x y z : ℚ),
      rowPose samplePlatform 3 "7,1000,2000,3000,0,0,1".toList = .ok pose ∧
        samplePlatform.stod "1000".toList = .ok x ∧ samplePlatform.stod "2000".toList = .ok y ∧
        samplePlatform.stod "3000".toList = .ok z ∧
        pose.translation = ⟨x / 1000, y / 1000, z / 1000⟩ :=
  C8_translation_is_scaled_position samplePlatform 3 "7,1000,2000,3000,0,0,1".toList
    "7".toList "1000".toList "2000".toList "3000".toList [['0'], ['0'], ['1']]
    (by
      unfold rowAccepted
      rw [show getlines ',' "7,1000,2000,3000,0,0,1".toList =
        [['7'], ['1', '0', '0', '0'], ['2', '0', '0', '0'], ['3', '0', '0', '0'], ['0'], ['0'],
          ['1']] by decide]
      simp [samplePlatform, decimalPlatform, stodDecimal_digit_zero, stodDecimal_digit_one,
        stodDecimal_thousand, stodDecimal_two_thousand, stodDecimal_three_thousand,
        Except.toBool])
    (by decide)

/-- C9, counterexample.  The file whose only data row is `7,1,2,3,0,0,0`, a row with the
zero normal, does not make `makePuzzleToolPoses` fail, whatever the storage of `xyzijk`
held. -/
theorem C9_counterexample :
    ¬ ∃ (uninit : Nat → Fin 6 → ℝ) (e : Exn),
      makePuzzleToolPoses (decimalPlatform Real.sqrt uninit) "h\nh\n7,1,2,3,0,0,0" =
        .error e := by
  rintro ⟨uninit, e, he⟩
  obtain ⟨v, hv, -, -⟩ := parseRow_seven (decimalPlatform Real.sqrt uninit) 3
    "7,1,2,3,0,0,0".toList ['7'] ['1'] ['2'] ['3'] ['0'] ['0'] ['0'] 1 2 3 0 0 0 (by decide)
    stodDecimal_digit_one stodDecimal_digit_two stodDecimal_digit_three
    stodDecimal_digit_zero stodDecimal_digit_zero stodDecimal_digit_zero
  rw [makePuzzleToolPoses_one_row _ _ ['h'] ['h'] "7,1,2,3,0,0,0".toList (by decide),
    rowPose_of_parseRow _ _ _ v hv] at he
  cases he

/-- C9, amended.  A data row that is read to its end and whose normal is the zero vector
does not make `makePuzzleToolPoses` fail: a frame is built for the row.  Normalisation
leaves the zero vector as it is, so the third axis of that frame is the zero vector (and so
are the other two axes); the translation is the scaled position as for any row. -/
theorem C9_zero_normal_gets_frame {R : Type} [LinearOrderedField R] (P : Platform R)
    (lnum : Nat) (line : List Char) (xyzijk : Fin 6 → R)
    (hrow : parseRow P lnum line = .ok xyzijk) (hzero : tail3 xyzijk = Vector3d.zero) :
    ∃ pose, rowPose P lnum line = .ok pose ∧ pose.col2 = Vector3d.zero ∧
      pose.col0 = Vector3d.zero ∧ pose.col1 = Vector3d.zero ∧
      pose.translation = (head3 xyzijk).divScalar 1000 := by
  obtain ⟨h0, h1, h2⟩ := toolPose_of_tail_zero P.sqrt xyzijk hzero
  exact ⟨toolPose P.sqrt xyzijk, rowPose_of_parseRow P lnum line xyzijk hrow, h2, h0, h1, rfl⟩

/-- C9, witness: the row `7,1,2,3,0,0,0`. -/
theorem C9_witness :
    ∃ pose : Affine3d ℚ,
      rowPose samplePlatform 3 "7,1,2,3,0,0,0".toList = .ok pose ∧ pose.col2 = Vector3d.zero ∧
        pose.col0 = Vector3d.zero ∧ pose.col1 = Vector3d.zero ∧
        pose.translation = ⟨1 / 1000, 2 / 1000, 3 / 1000⟩ := by
  obtain ⟨v, hv, hh, ht⟩ := parseRow_seven samplePlatform 3
    "7,1,2,3,0,0,0".toList ['7'] ['1'] ['2'] ['3'] ['0'] ['0'] ['0'] 1 2 3 0 0 0 (by decide)
    stodDecimal_digit_one stodDecimal_digit_two stodDecimal_digit_three
    stodDecimal_digit_zero stodDecimal_digit_zero stodDecimal_digit_zero
  obtain ⟨pose, h1, h2, h3, h4, h5⟩ :=
    C9_zero_normal_gets_frame samplePlatform 3 "7,1,2,3,0,0,0".toList v hv ht
  refine ⟨pose, h1, h2, h3, h4, ?_⟩
  rw [h5, hh]
  rfl

/-- C10, counterexample.  In the data row `abc,0,0,0,0,0,1` the first field is not numeric
(`std::stod` rejects it), yet `makePuzzleToolPoses` does not fail on the file, whatever the
storage of `xyzijk` held: the first cell of a row is never converted. -/
theorem C10_counterexample :
    (stodDecimal "abc".toList : Except Exn ℝ) = .error Exn.invalid_argument ∧
      ¬ ∃ (uninit : Nat → Fin 6 → ℝ) (e : Exn),
        makePuzzleToolPoses (decimalPlatform Real.sqrt uninit) "h\nh\nabc,0,0,0,0,0,1" =
          .error e := by
  refine ⟨?_, ?_⟩
  · unfold stodDecimal
    rw [show readDecimal "abc".toList = none by decide]
  · rintro ⟨uninit, e, he⟩
    obtain ⟨v, hv, -, -⟩ := parseRow_seven (decimalPlatform Real.sqrt uninit) 3
      "abc,0,0,0,0,0,1".toList "abc".toList ['0'] ['0'] ['0'] ['0'] ['0'] ['1'] 0 0 0 0 0 1
      (by decide) stodDecimal_digit_zero stodDecimal_digit_zero stodDecimal_digit_zero
      stodDecimal_digit_zero stodDecimal_digit_zero stodDecimal_digit_one
    rw [makePuzzleToolPoses_one_row _ _ ['h'] ['h'] "abc,0,0,0,0,0,1".toList (by decide),
      rowPose_of_parseRow _ _ _ v hv] at he
    cases he

/-- C10, amended.  For every file that contains, after the first two rows, a row with a
field other than its first that `std::stod` rejects, `makePuzzleToolPoses` fails: the
exception ends the program at that row at the latest, and no path is returned, not even
the frames of the rows before it.  (The first field of a row is never converted, and
`std::stod` rejects a field only when it does not begin with a number.) -/
theorem C10_rejected_field_is_fatal {R : Type} [LinearOrderedField R] (P : Platform R)
    (file : String) (k j : Nat) (line cell : List Char) (e : Exn)
    (hline : (fileLines file)[k + 2]? = some line)
    (hcell : (getlines ',' line)[j + 1]? = some cell) (hbad : P.stod cell = .error e) :
    ∃ e1, makePuzzleToolPoses P file = .error e1 ∧
      ∀ path, makePuzzleToolPoses P file ≠ .ok path := by
  obtain ⟨e0, he0⟩ := parseRow_error_of_rejected P (k + 3) line j cell e hcell hbad
  have hrow : rowPose P (k + 3) line = .error e0 := by
    unfold rowPose; rw [he0]
  obtain ⟨e1, he1⟩ := makePuzzleToolPoses_error_of_row P file k line e0 hline hrow
  exact ⟨e1, he1, fun path hp => by rw [he1] at hp; cases hp⟩

/-- C10, witness: a good row followed by a row whose fourth field is `x`. -/
theorem C10_witness :
    ∃ e1, makePuzzleToolPoses samplePlatform "h\nh\n7,1,2,3,0,0,1\n7,0,0,x,0,0,1" =
        .error e1 ∧
      ∀ path, makePuzzleToolPoses samplePlatform "h\nh\n7,1,2,3,0,0,1\n7,0,0,x,0,0,1" ≠
        .ok path :=
  C10_rejected_field_is_fatal samplePlatform "h\nh\n7,1,2,3,0,0,1\n7,0,0,x,0,0,1" 1 2
    "7,0,0,x,0,0,1".toList ['x'] Exn.invalid_argument (by decide) (by decide)
    (by
      show stodDecimal ['x'] = _
      unfold stodDecimal
      rw [show readDecimal ['x'] = none by decide])

/-- Every entry of the constraint list built by lines 144-158 is a pose term made by
`poseCnt` for some step and some pose of the path. -/
theorem cnt_infos_mem_pose {R : Type} [LinearOrderedField R] (P : Platform R) (env : Env R)
    (tool_poses : List (Affine3d R)) (cnt : List (TermInfo R))
    (hlen : cnt.length = tool_poses.length)
    (hget : ∀ (k : Nat) (tcp : Affine3d R), tool_poses[k]? = some tcp →
      cnt[k]? = some (TermInfo.Pose (poseCnt (stationary_xyz env) (stationary_wxyz P env)
        k tcp)))
    (t : TermInfo R) (ht : t ∈ cnt) :
    ∃ (k : Nat) (tcp : Affine3d R),
      t = TermInfo.Pose (poseCnt (stationary_xyz env) (stationary_wxyz P env) k tcp) := by
  obtain ⟨k, hk⟩ := List.getElem?_of_mem ht
  have hk1 : k < cnt.length := by
    by_contra hn
    rw [List.getElem?_eq_none (by omega)] at hk
    cases hk
  have hk2 : k < tool_poses.length := by omega
  have := hget k tool_poses[k] (List.getElem?_eq_getElem hk2)
  rw [hk] at this
  simp only [Option.some.injEq] at this
  exact ⟨k, _, this⟩

/-- C11.  For every tool path, in an environment that resolves the manipulator, the cost
list built by `cppMethod` starts with three joint smoothness terms, velocity, acceleration
and jerk in this order, each classified as a cost; their coefficient vectors are the seven
entries `1`, the seven entries `2` and the seven entries `5`, so every coefficient of the
first is `1`, of the second `2`, of the third `5`; the rest of the list is the collision
term alone, so no other smoothness term is in the list. -/
theorem C11_smoothness_costs {R : Type} [LinearOrderedField R] (P : Platform R)
    (env : Env R) (tool_poses : List (Affine3d R)) (kin : BasicKin)
    (hkin : env.getManipulator "manipulator" = some kin) :
    ∃ (pci : ProblemConstructionInfo R) (vel acc jerk : JointCostInfo R)
      (rest : List (TermInfo R)),
      cppMethodFrom P env tool_poses = .ok pci ∧
      pci.cost_infos =
        TermInfo.JointVel vel :: TermInfo.JointAcc acc :: TermInfo.JointJerk jerk :: rest ∧
      vel.term_type = TermType.TT_COST ∧ acc.term_type = TermType.TT_COST ∧
      jerk.term_type = TermType.TT_COST ∧
      vel.coeffs = [1, 1, 1, 1, 1, 1, 1] ∧ acc.coeffs = [2, 2, 2, 2, 2, 2, 2] ∧
      jerk.coeffs = [5, 5, 5, 5, 5, 5, 5] ∧
      vel.name = "joint_vel" ∧ acc.name = "joint_acc" ∧ jerk.name = "joint_jerk" ∧
      (∀ c ∈ vel.coeffs, c = 1) ∧ (∀ c ∈ acc.coeffs, c = 2) ∧ (∀ c ∈ jerk.coeffs, c = 5) ∧
      (∃ collision, rest = [TermInfo.Collision collision]) ∧
      (∀ t ∈ rest, ∀ info, t ≠ TermInfo.JointVel info ∧ t ≠ TermInfo.JointAcc info ∧
        t ≠ TermInfo.JointJerk info) := by
  obtain ⟨cnt, hc, -, -⟩ := cppMethodFrom_ok P env tool_poses kin hkin
  refine ⟨_, _, _, _, _, hc, rfl, rfl, rfl, rfl, rfl, rfl, rfl, rfl, rfl, rfl,
    ?_, ?_, ?_, ⟨_, rfl⟩, ?_⟩
  · intro c hc1; exact List.eq_of_mem_replicate hc1
  · intro c hc1; exact List.eq_of_mem_replicate hc1
  · intro c hc1; exact List.eq_of_mem_replicate hc1
  · intro t ht info
    simp only [List.mem_singleton] at ht
    rw [ht]
    simp

/-- C11, witness: the sample path in the sample environment. -/
theorem C11_witness :
    ∃ (pci : ProblemConstructionInfo ℚ) (vel acc jerk : JointCostInfo ℚ)
      (rest : List (TermInfo ℚ)),
      cppMethodFrom samplePlatform sampleEnv samplePath = .ok pci ∧
      pci.cost_infos =
        TermInfo.JointVel vel :: TermInfo.JointAcc acc :: TermInfo.JointJerk jerk :: rest ∧
      vel.term_type = TermType.TT_COST ∧ acc.term_type = TermType.TT_COST ∧
      jerk.term_type = TermType.TT_COST ∧
      vel.coeffs = [1, 1, 1, 1, 1, 1, 1] ∧ acc.coeffs = [2, 2, 2, 2, 2, 2, 2] ∧
      jerk.coeffs = [5, 5, 5, 5, 5, 5, 5] ∧
      vel.name = "joint_vel" ∧ acc.name = "joint_acc" ∧ jerk.name = "joint_jerk" ∧
      (∀ c ∈ vel.coeffs, c = 1) ∧ (∀ c ∈ acc.coeffs, c = 2) ∧ (∀ c ∈ jerk.coeffs, c = 5) ∧
      (∃ collision, rest = [TermInfo.Collision collision]) ∧
      (∀ t ∈ rest, ∀ info, t ≠ TermInfo.JointVel info ∧ t ≠ TermInfo.JointAcc info ∧
        t ≠ TermInfo.JointJerk info) :=
  C11_smoothness_costs samplePlatform sampleEnv samplePath ⟨"manipulator"⟩ rfl

/-- C12.  For every tool path of `n` frames, in an environment that resolves the
manipulator, the cost list built by `cppMethod` holds exactly one collision term; it is a
cost, not continuous, with gap `1`, first step `0` and last step `n - 1`, and its
safety-margin table has `n` entries, each with margin distance `0.025` and coefficient
`20`. -/
theorem C12_collision_cost {R : Type} [LinearOrderedField R] (P : Platform R)
    (env : Env R) (tool_poses : List (Affine3d R)) (kin : BasicKin)
    (hkin : env.getManipulator "manipulator" = some kin) :
    ∃ (pci : ProblemConstructionInfo R) (before after : List (TermInfo R))
      (collision : CollisionCostInfo R),
      cppMethodFrom P env tool_poses = .ok pci ∧
      pci.cost_infos = before ++ TermInfo.Collision collision :: after ∧
      (∀ t ∈ before ++ after, ∀ info, t ≠ TermInfo.Collision info) ∧
      collision.term_type = TermType.TT_COST ∧ collision.continuous = false ∧
      collision.gap = 1 ∧ collision.first_step = 0 ∧
      collision.last_step = (tool_poses.length : Int) - 1 ∧
      collision.info.length = tool_poses.length ∧
      ∀ d ∈ collision.info, d.margin = 25 / 1000 ∧ d.coeff = 20 := by
  obtain ⟨cnt, hc, -, -⟩ := cppMethodFrom_ok P env tool_poses kin hkin
  refine ⟨_, [_, _, _], [], _, hc, rfl, ?_, rfl, rfl, rfl, rfl, rfl, ?_, ?_⟩
  · intro t ht info
    simp only [List.append_nil, List.mem_cons, List.mem_singleton, List.not_mem_nil,
      or_false] at ht
    rcases ht with h | h | h <;> rw [h] <;> simp
  · simp [createSafetyMarginDataVector]
  · intro d hd
    simp only [createSafetyMarginDataVector] at hd
    rw [List.eq_of_mem_replicate hd]
    exact ⟨rfl, rfl⟩

/-- C12, witness: the sample path in the sample environment. -/
theorem C12_witness :
    ∃ (pci : ProblemConstructionInfo ℚ) (before after : List (TermInfo ℚ))
      (collision : CollisionCostInfo ℚ),
      cppMethodFrom samplePlatform sampleEnv samplePath = .ok pci ∧
      pci.cost_infos = before ++ TermInfo.Collision collision :: after ∧
      (∀ t ∈ before ++ after, ∀ info, t ≠ TermInfo.Collision info) ∧
      collision.term_type = TermType.TT_COST ∧ collision.continuous = false ∧
      collision.gap = 1 ∧ collision.first_step = 0 ∧
      collision.last_step = ((samplePath.length : Nat) : Int) - 1 ∧
      collision.info.length = samplePath.length ∧
      ∀ d ∈ collision.info, d.margin = 25 / 1000 ∧ d.coeff = 20 :=
  C12_collision_cost samplePlatform sampleEnv samplePath ⟨"manipulator"⟩ rfl

/-- From the file to the constraint list: when every line after the first two is accepted
and the environment resolves the manipulator, `cppMethod` returns a problem description with
one constraint per such line, the constraint at index `k` being the pose term of step `k`
whose tool-centre-point frame is the frame of line `k + 3`. -/
theorem cppMethod_file_spec {R : Type} [LinearOrderedField R] (P : Platform R) (env : Env R)
    (kin : BasicKin) (hkin : env.getManipulator "manipulator" = some kin) (file : String)
    (hall : ∀ row ∈ (fileLines file).drop 2, rowAccepted P row = true) :
    ∃ pci, cppMethod P env file = .ok pci ∧
      pci.cnt_infos.length = (fileLines file).length - 2 ∧
      ∀ (k : Nat) (line : List Char), (fileLines file)[k + 2]? = some line →
        ∃ xyzijk, parseRow P (k + 3) line = .ok xyzijk ∧
          pci.cnt_infos[k]? = some (TermInfo.Pose (poseCnt (stationary_xyz env)
            (stationary_wxyz P env) k (toolPose P.sqrt xyzijk))) := by
  obtain ⟨path, h1, h2, h3⟩ := makePuzzleToolPoses_ok_spec P file hall
  obtain ⟨cnt, hc, hlen, hget⟩ := cppMethodFrom_ok P env path kin hkin
  have hcpp := hc
  rw [show cppMethodFrom P env path = cppMethod P env file by
    unfold cppMethod; rw [h1]] at hcpp
  refine ⟨_, hcpp, by rw [← h2]; exact hlen, ?_⟩
  intro k line hk
  obtain ⟨pose, hp1, hp2⟩ := h3 k line hk
  obtain ⟨v, hv1, hv2⟩ := parseRow_of_rowPose P (k + 3) line pose hp2
  refine ⟨v, hv1, ?_⟩
  rw [← hv2]
  exact hget k pose hp1

/-- C13.  In an environment that resolves the manipulator, `cppMethod` builds one pose term
per frame of the tool path, the term of step `i` carrying the frame `i`, and for every one
of these terms the three position weights are equal and strictly positive (`10`), and the
orientation weights are strictly positive on the first two axes (`10`) and zero on the
third.  The third axis is the one to which `makePuzzleToolPoses` assigns the normalised
surface normal (column 2 of the frame): for a file of accepted rows, the term of step `k`
has as column 2 of its tool-centre-point frame the normalised normal of line `k + 3`. -/
theorem C13_pose_weights {R : Type} [LinearOrderedField R] (P : Platform R)
    (env : Env R) (tool_poses : List (Affine3d R)) (kin : BasicKin)
    (hkin : env.getManipulator "manipulator" = some kin) :
    ∃ pci, cppMethodFrom P env tool_poses = .ok pci ∧
      pci.cnt_infos.length = tool_poses.length ∧
      (∀ (i : Nat) (tcp : Affine3d R), tool_poses[i]? = some tcp →
        ∃ info, pci.cnt_infos[i]? = some (TermInfo.Pose info) ∧ info.tcp = tcp ∧
          info.pos_coeffs = ⟨10, 10, 10⟩ ∧ info.rot_coeffs = ⟨10, 10, 0⟩) ∧
      (∀ t ∈ pci.cnt_infos, ∃ info, t = TermInfo.Pose info ∧
        info.pos_coeffs.x = info.pos_coeffs.y ∧ info.pos_coeffs.y = info.pos_coeffs.z ∧
        0 < info.pos_coeffs.x ∧ 0 < info.rot_coeffs.x ∧ 0 < info.rot_coeffs.y ∧
        info.rot_coeffs.z = 0) ∧
      (∀ xyzijk : Fin 6 → R,
        (toolPose P.sqrt xyzijk).col2 = (tail3 xyzijk).normalized P.sqrt) ∧
      ∀ file : String, (∀ row ∈ (fileLines file).drop 2, rowAccepted P row = true) →
        ∃ pci2, cppMethod P env file = .ok pci2 ∧
          pci2.cnt_infos.length = (fileLines file).length - 2 ∧
          ∀ (k : Nat) (line : List Char), (fileLines file)[k + 2]? = some line →
            ∃ xyzijk info, parseRow P (k + 3) line = .ok xyzijk ∧
              pci2.cnt_infos[k]? = some (TermInfo.Pose info) ∧
              info.tcp.col2 = (tail3 xyzijk).normalized P.sqrt ∧
              info.rot_coeffs.z = 0 ∧ 0 < info.rot_coeffs.x ∧ 0 < info.rot_coeffs.y := by
  obtain ⟨cnt, hc, hlen, hget⟩ := cppMethodFrom_ok P env tool_poses kin hkin
  refine ⟨_, hc, hlen, ?_, ?_, fun _ => rfl, ?_⟩
  · intro i tcp hi
    exact ⟨_, hget i tcp hi, rfl, rfl, rfl⟩
  · intro t ht
    obtain ⟨k, tcp, hk⟩ := cnt_infos_mem_pose P env tool_poses cnt hlen hget t ht
    refine ⟨_, hk, rfl, rfl, ?_, ?_, ?_, rfl⟩ <;> simp [poseCnt]
  · intro file hall
    obtain ⟨pci2, h1, h2, h3⟩ := cppMethod_file_spec P env kin hkin file hall
    refine ⟨pci2, h1, h2, ?_⟩
    intro k line hk
    obtain ⟨v, hv1, hv2⟩ := h3 k line hk
    refine ⟨v, _, hv1, hv2, rfl, rfl, ?_, ?_⟩ <;> simp [poseCnt]

/-- C13, witness: the sample path of two frames in the sample environment. -/
theorem C13_witness :
    ∃ pci, cppMethodFrom samplePlatform sampleEnv samplePath = .ok pci ∧
      pci.cnt_infos.length = samplePath.length ∧
      (∀ (i : Nat) (tcp : Affine3d ℚ), samplePath[i]? = some tcp →
        ∃ info, pci.cnt_infos[i]? = some (TermInfo.Pose info) ∧ info.tcp = tcp ∧
          info.pos_coeffs = ⟨10, 10, 10⟩ ∧ info.rot_coeffs = ⟨10, 10, 0⟩) ∧
      (∀ t ∈ pci.cnt_infos, ∃ info, t = TermInfo.Pose info ∧
        info.pos_coeffs.x = info.pos_coeffs.y ∧ info.pos_coeffs.y = info.pos_coeffs.z ∧
        0 < info.pos_coeffs.x ∧ 0 < info.rot_coeffs.x ∧ 0 < info.rot_coeffs.y ∧
        info.rot_coeffs.z = 0) ∧
      (∀ xyzijk : Fin 6 → ℚ,
        (toolPose samplePlatform.sqrt xyzijk).col2 =
          (tail3 xyzijk).normalized samplePlatform.sqrt) ∧
      ∀ file : String,
        (∀ row ∈ (fileLines file).drop 2, rowAccepted samplePlatform row = true) →
        ∃ pci2, cppMethod samplePlatform sampleEnv file = .ok pci2 ∧
          pci2.cnt_infos.length = (fileLines file).length - 2 ∧
          ∀ (k : Nat) (line : List Char), (fileLines file)[k + 2]? = some line →
            ∃ xyzijk info, parseRow samplePlatform (k + 3) line = .ok xyzijk ∧
              pci2.cnt_infos[k]? = some (TermInfo.Pose info) ∧
              info.tcp.col2 = (tail3 xyzijk).normalized samplePlatform.sqrt ∧
              info.rot_coeffs.z = 0 ∧ 0 < info.rot_coeffs.x ∧ 0 < info.rot_coeffs.y :=
  C13_pose_weights samplePlatform sampleEnv samplePath ⟨"manipulator"⟩ rfl

/-- C14, counterexample.  In an environment whose manipulator has six joints (a current
joint vector of six components, hence rows of six columns in the initial trajectory), the
coefficient vector of the velocity term built by `cppMethod` does not have six entries. -/
theorem C14_counterexample :
    ∃ (pci : ProblemConstructionInfo ℚ) (vel : JointCostInfo ℚ),
      cppMethodFrom samplePlatform sampleEnvSix samplePath = .ok pci ∧
      pci.cost_infos.head? = some (TermInfo.JointVel vel) ∧
      (sampleEnvSix.getCurrentJointValues pci.kin.getName).length = 6 ∧
      (∀ row ∈ pci.init_info.data, row.length = 6) ∧
      vel.coeffs.length ≠ (sampleEnvSix.getCurrentJointValues pci.kin.getName).length := by
  obtain ⟨cnt, hc, -, -⟩ :=
    cppMethodFrom_ok samplePlatform sampleEnvSix samplePath ⟨"manipulator"⟩ rfl
  refine ⟨_, _, hc, rfl, rfl, ?_, ?_⟩
  · intro row hrow
    rw [List.eq_of_mem_replicate hrow]
    rfl
  · simp [sampleEnvSix]

/-- C14, amended.  For every environment that resolves the manipulator, the coefficient
vector of each of the three joint smoothness terms built by `cppMethod` has exactly seven
entries, the constant written at lines 110, 116 and 122; it has as many entries as the
current joint vector of the environment exactly when that vector has seven components. -/
theorem C14_seven_coefficients {R : Type} [LinearOrderedField R] (P : Platform R)
    (env : Env R) (tool_poses : List (Affine3d R)) (kin : BasicKin)
    (hkin : env.getManipulator "manipulator" = some kin) :
    ∃ (pci : ProblemConstructionInfo R) (vel acc jerk : JointCostInfo R)
      (rest : List (TermInfo R)),
      cppMethodFrom P env tool_poses = .ok pci ∧
      pci.cost_infos =
        TermInfo.JointVel vel :: TermInfo.JointAcc acc :: TermInfo.JointJerk jerk :: rest ∧
      vel.coeffs.length = 7 ∧ acc.coeffs.length = 7 ∧ jerk.coeffs.length = 7 ∧
      (vel.coeffs.length = (env.getCurrentJointValues kin.getName).length ↔
        (env.getCurrentJointValues kin.getName).length = 7) := by
  obtain ⟨cnt, hc, -, -⟩ := cppMethodFrom_ok P env tool_poses kin hkin
  refine ⟨_, _, _, _, _, hc, rfl, by simp, by simp, by simp, ?_⟩
  simp only [List.length_replicate]
  exact eq_comm

/-- C14, witness: the sample environment, whose joint vector has seven components. -/
theorem C14_witness :
    ∃ (pci : ProblemConstructionInfo ℚ) (vel acc jerk : JointCostInfo ℚ)
      (rest : List (TermInfo ℚ)),
      cppMethodFrom samplePlatform sampleEnv samplePath = .ok pci ∧
      pci.cost_infos =
        TermInfo.JointVel vel :: TermInfo.JointAcc acc :: TermInfo.JointJerk jerk :: rest ∧
      vel.coeffs.length = 7 ∧ acc.coeffs.length = 7 ∧ jerk.coeffs.length = 7 ∧
      (vel.coeffs.length = (sampleEnv.getCurrentJointValues "manipulator").length ↔
        (sampleEnv.getCurrentJointValues "manipulator").length = 7) :=
  C14_seven_coefficients samplePlatform sampleEnv samplePath ⟨"manipulator"⟩ rfl

/-- A file of at most two lines gives the empty path. -/
theorem makePuzzleToolPoses_header_only {R : Type} [LinearOrderedField R] (P : Platform R)
    (file : String) (h : (fileLines file).length ≤ 2) :
    makePuzzleToolPoses P file = .ok [] := by
  rw [makePuzzleToolPoses_eq, List.drop_eq_nil_iff.2 h]
  rfl

/-- C15.  For every file with at most two lines, `makePuzzleToolPoses` returns the empty
path without failing, and, in an environment that resolves the manipulator, `cppMethod`
does not fail either: it returns a problem description with step count `0`, an empty
constraint list (no pose term in the cost list either) and an initial trajectory with no
row. -/
theorem C15_no_data_rows {R : Type} [LinearOrderedField R] (P : Platform R) (env : Env R)
    (kin : BasicKin) (hkin : env.getManipulator "manipulator" = some kin) (file : String)
    (hfile : (fileLines file).length ≤ 2) :
    makePuzzleToolPoses P file = .ok [] ∧
      ∃ pci, cppMethod P env file = .ok pci ∧ pci.basic_info.n_steps = 0 ∧
        pci.cnt_infos = [] ∧ (∀ t ∈ pci.cost_infos, ∀ info, t ≠ TermInfo.Pose info) ∧
        pci.init_info.data = [] := by
  have hm := makePuzzleToolPoses_header_only P file hfile
  obtain ⟨cnt, hc, hlen, -⟩ := cppMethodFrom_ok P env [] kin hkin
  have hcnt : cnt = [] := List.eq_nil_of_length_eq_zero hlen
  subst hcnt
  have hcpp := hc
  rw [show cppMethodFrom P env [] = cppMethod P env file by unfold cppMethod; rw [hm]] at hcpp
  refine ⟨hm, _, hcpp, rfl, rfl, ?_, rfl⟩
  intro t ht info
  simp only [List.mem_cons, List.mem_singleton, List.not_mem_nil, or_false] at ht
  rcases ht with h | h | h | h <;> rw [h] <;> simp

/-- C15, witness: a file with two header lines only, in the sample environment. -/
theorem C15_witness :
    makePuzzleToolPoses samplePlatform "x,y,z,i,j,k\nmm,mm,mm,,,\n" = .ok [] ∧
      ∃ pci, cppMethod samplePlatform sampleEnv "x,y,z,i,j,k\nmm,mm,mm,,,\n" = .ok pci ∧
        pci.basic_info.n_steps = 0 ∧ pci.cnt_infos = [] ∧
        (∀ t ∈ pci.cost_infos, ∀ info, t ≠ TermInfo.Pose info) ∧ pci.init_info.data = [] :=
  C15_no_data_rows samplePlatform sampleEnv ⟨"manipulator"⟩ rfl
    "x,y,z,i,j,k\nmm,mm,mm,,,\n" (by decide)

/-- C17.  Whatever the collision queries and the solver return, lines 209-238 of `main`
raise these events in this order: the collision query on the initial trajectory of the
problem first; then, among others, the setting of the tuning parameters `pci.opt_info`;
then the start of the solver from the initial trajectory and one run of the solver; then,
among others, the report of the status; and last the collision query on the trajectory
that the solver returned and the report of its count.  The count of the first query is
reported before the solver is started.  The solver is started once and run
once, and there are exactly two collision queries. -/
theorem C17_solve_once_then_check {R S D : Type} (W : Collaborators R S D)
    (plotting_ : Bool) (pci : ProblemConstructionInfo R) (prob : TrajOptProb R) :
    ∃ before between : List (Event R S),
      mainSolve W plotting_ pci prob =
        Event.collisionCheck prob.getJointNames prob.getLinkNames prob.GetInitTraj ::
          before ++
        Event.start (W.trajToDblVec prob.GetInitTraj) :: Event.optimize :: between ++
        [Event.collisionCheck prob.getJointNames prob.getLinkNames
            (W.getTraj prob
              (W.optimize prob pci.opt_info plotting_
                (W.trajToDblVec prob.GetInitTraj)).2),
          Event.infoFinal
            (W.continuousCollisionCheckTrajectory prob.getJointNames prob.getLinkNames
              (W.getTraj prob
                (W.optimize prob pci.opt_info plotting_
                  (W.trajToDblVec prob.GetInitTraj)).2)).length] ∧
      Event.infoInitial
          (W.continuousCollisionCheckTrajectory prob.getJointNames prob.getLinkNames
            prob.GetInitTraj).length ∈ before ∧
      Event.setParameters pci.opt_info ∈ before ∧
      Event.infoStatus
          (W.optimize prob pci.opt_info plotting_ (W.trajToDblVec prob.GetInitTraj)).1 ∈
        between ∧
      (mainSolve W plotting_ pci prob).countP Event.isOptimize = 1 ∧
      (mainSolve W plotting_ pci prob).countP Event.isStart = 1 ∧
      (mainSolve W plotting_ pci prob).countP Event.isCollisionCheck = 2 := by
  refine ⟨[Event.infoInitial (W.continuousCollisionCheckTrajectory prob.getJointNames
        prob.getLinkNames prob.GetInitTraj).length, Event.setParameters pci.opt_info] ++
      (if plotting_ then [Event.addCallback] else []),
    [Event.infoStatus
        (W.optimize prob pci.opt_info plotting_ (W.trajToDblVec prob.GetInitTraj)).1] ++
      (if plotting_ then [Event.plotClear] else []) ++
      [Event.plotTrajectory prob.getJointNames
        (W.getTraj prob
          (W.optimize prob pci.opt_info plotting_ (W.trajToDblVec prob.GetInitTraj)).2)],
    ?_, ?_, ?_, ?_, ?_, ?_, ?_⟩
  · cases plotting_ <;> rfl
  · simp
  · simp
  · simp
  · cases plotting_ <;> rfl
  · cases plotting_ <;> rfl
  · cases plotting_ <;> rfl

/-- The write indices of a line of seven cells are `0` to `5`. -/
theorem writeIndices_seven (c0 c1 c2 c3 c4 c5 c6 : List Char) :
    writeIndices [c0, c1, c2, c3, c4, c5, c6] (-2) = [0, 1, 2, 3, 4, 5] := by
  simp [writeIndices]

/-- C18.  For every data row of exactly seven cells whose cells 2 to 7 are converted by
`std::stod`, whatever the first cell holds (it is skipped, no conversion of it is
attempted), the row is read to its end: the six values are stored in order, the cells 2-4
as `xyzijk.head<3>()`, the position in millimetres, and the cells 5-7 as
`xyzijk.tail<3>()`, the normal; the loop assigns at the indices `0` to `5`, once each. -/
theorem C18_seven_cells_fill_xyzijk {R : Type} (P : Platform R) (lnum : Nat)
    (line c0 c1 c2 c3 c4 c5 c6 : List Char) (d1 d2 d3 d4 d5 d6 : R)
    (hg : getlines ',' line = [c0, c1, c2, c3, c4, c5, c6])
    (h1 : P.stod c1 = .ok d1) (h2 : P.stod c2 = .ok d2) (h3 : P.stod c3 = .ok d3)
    (h4 : P.stod c4 = .ok d4) (h5 : P.stod c5 = .ok d5) (h6 : P.stod c6 = .ok d6) :
    ∃ xyzijk, parseRow P lnum line = .ok xyzijk ∧ head3 xyzijk = ⟨d1, d2, d3⟩ ∧
      tail3 xyzijk = ⟨d4, d5, d6⟩ ∧
      writeIndices (getlines ',' line) (-2) = [0, 1, 2, 3, 4, 5] := by
  obtain ⟨v, hv, hh, ht⟩ := parseRow_seven P lnum line c0 c1 c2 c3 c4 c5 c6 d1 d2 d3 d4 d5 d6
    hg h1 h2 h3 h4 h5 h6
  exact ⟨v, hv, hh, ht, by rw [hg]; exact writeIndices_seven c0 c1 c2 c3 c4 c5 c6⟩

/-- C18, witness: the row `point,1,2,3,0,0,1`, whose first cell is not numeric. -/
theorem C18_witness :
    (samplePlatform.stod "point".toList = .error Exn.invalid_argument) ∧
      ∃ xyzijk, parseRow samplePlatform 3 "point,1,2,3,0,0,1".toList = .ok xyzijk ∧
        head3 xyzijk = ⟨1, 2, 3⟩ ∧ tail3 xyzijk = ⟨0, 0, 1⟩ ∧
        writeIndices (getlines ',' "point,1,2,3,0,0,1".toList) (-2) = [0, 1, 2, 3, 4, 5] :=
  ⟨by
      show stodDecimal "point".toList = _
      unfold stodDecimal
      rw [show readDecimal "point".toList = none by decide],
    C18_seven_cells_fill_xyzijk samplePlatform 3 "point,1,2,3,0,0,1".toList
      "point".toList ['1'] ['2'] ['3'] ['0'] ['0'] ['1'] 1 2 3 0 0 1 (by decide)
      stodDecimal_digit_one stodDecimal_digit_two stodDecimal_digit_three
      stodDecimal_digit_zero stodDecimal_digit_zero stodDecimal_digit_one⟩

/-- C19.  For every row that is read to its end and whose position `p` is not parallel to
its normal `n` (`p × n ≠ 0`; the normal and the position are then not zero), the frame that
`makePuzzleToolPoses` builds for the row is, over the reals, a right-handed orthonormal
basis: the third axis is `n / |n|`, the three axes have length one and are pairwise
orthogonal, the cross product of the first and second axes is the third axis and the
determinant of the rotation is `1`. -/
theorem C19_right_handed_orthonormal (P : Platform ℝ) (hsqrt : P.sqrt = Real.sqrt)
    (lnum : Nat) (line : List Char) (xyzijk : Fin 6 → ℝ)
    (hrow : parseRow P lnum line = .ok xyzijk)
    (hpn : (head3 xyzijk).cross (tail3 xyzijk) ≠ zero) :
    tail3 xyzijk ≠ zero ∧ head3 xyzijk ≠ zero ∧
      ∃ pose, rowPose P lnum line = .ok pose ∧
        pose.col2 = (tail3 xyzijk).divScalar (Vector3d.norm Real.sqrt (tail3 xyzijk)) ∧
        Orthonormal Real.sqrt pose ∧ cross pose.col0 pose.col1 = pose.col2 ∧
        pose.linearDet = 1 := by
  refine ⟨fun h0 => hpn (by rw [h0]; exact cross_zero_right _),
    fun h0 => hpn (by rw [h0]; exact cross_zero_left _),
    toolPose P.sqrt xyzijk, rowPose_of_parseRow P lnum line xyzijk hrow, ?_⟩
  rw [hsqrt]
  exact ⟨(toolPose_frame_real xyzijk hpn).1, toolPose_orthonormal_real xyzijk hpn,
    (toolPose_right_handed_real xyzijk hpn).1, (toolPose_right_handed_real xyzijk hpn).2⟩

/-- C19, witness: the row `7,1,0,0,0,0,1`, with position `(1,0,0)` and normal `(0,0,1)`. -/
theorem C19_witness :
    ∃ (pose : Affine3d ℝ) (xyzijk : Fin 6 → ℝ),
      parseRow (decimalPlatform Real.sqrt (fun _ _ => 0)) 3 "7,1,0,0,0,0,1".toList =
          .ok xyzijk ∧ head3 xyzijk = ⟨1, 0, 0⟩ ∧ tail3 xyzijk = ⟨0, 0, 1⟩ ∧
        rowPose (decimalPlatform Real.sqrt (fun _ _ => 0)) 3 "7,1,0,0,0,0,1".toList =
          .ok pose ∧
        pose.col2 = (tail3 xyzijk).divScalar (Vector3d.norm Real.sqrt (tail3 xyzijk)) ∧
        Orthonormal Real.sqrt pose ∧ cross pose.col0 pose.col1 = pose.col2 ∧
        pose.linearDet = 1 := by
  obtain ⟨v, hv, hh, ht⟩ := parseRow_seven (decimalPlatform Real.sqrt (fun _ _ => 0)) 3
    "7,1,0,0,0,0,1".toList ['7'] ['1'] ['0'] ['0'] ['0'] ['0'] ['1'] 1 0 0 0 0 1 (by decide)
    stodDecimal_digit_one stodDecimal_digit_zero stodDecimal_digit_zero
    stodDecimal_digit_zero stodDecimal_digit_zero stodDecimal_digit_one
  obtain ⟨-, -, pose, h1, h2, h3, h4, h5⟩ := C19_right_handed_orthonormal
    (decimalPlatform Real.sqrt (fun _ _ => 0)) rfl 3 "7,1,0,0,0,0,1".toList v hv
    (by rw [hh, ht]; simp [cross, zero])
  exact ⟨pose, v, hv, hh, ht, h1, h2, h3, h4, h5⟩

end Claims

end PuzzlePiecePlan
